import Mathlib

/-!
# ink.js: a verification development

A shallow embedding of `src/js/ink.js` (reveal-on-scroll, stack marquee sizing,
scroll-to-section and the ink-wipe transition) together with the properties
of its specification.

Conventions of the embedding.

* The document is the list of its elements in tree order; an element is
  identified by its position in that list, and `parent` records the tree.
* JavaScript numbers that carry measurements are rationals: the model has no
  `NaN` and no rounding.
* A template literal with one interpolated number is kept as its three parts
  (`CssText`), so that the number is not lost in a string.
* Closures are data: a callback is recorded by the code it runs and the
  variables it captured.
-/

namespace InkUi

/-! ## The document -/

/-- The value of a template literal: the text before the interpolated number,
the number, and the text after it. -/
structure CssText where
  pre : String
  num : ℚ
  suf : String
deriving DecidableEq

/-- An element of the document, with the attributes and measurements that
`ink.js` reads or writes. -/
structure Elem where
  id : String
  tag : String
  parent : Option Nat
  classList : List String
  style : List (String × CssText)
  rectWidth : ℚ
  scrollWidth : ℚ
  complete : Bool
deriving DecidableEq

/-- The elements of the document, in tree order. -/
abbrev Document := List Elem

/-- The method `classList.add`. -/
def classListAdd (c : String) (l : List String) : List String :=
  if c ∈ l then l else l ++ [c]

/-- The method `classList.remove`. -/
def classListRemove (c : String) (l : List String) : List String :=
  l.filter (fun x => x != c)

/-- The method `el.classList.contains(c)`; an index that is no element has no class. -/
def hasClass (c : String) (el : Nat) (doc : Document) : Bool :=
  match doc[el]? with
  | some e => decide (c ∈ e.classList)
  | none => false

/-- The call `el.classList.add(c)`. -/
def classAdd (c : String) (el : Nat) (doc : Document) : Document :=
  doc.modify (fun e => { e with classList := classListAdd c e.classList }) el

/-- The call `el.classList.remove(c)`. -/
def classRemove (c : String) (el : Nat) (doc : Document) : Document :=
  doc.modify (fun e => { e with classList := classListRemove c e.classList }) el

/-- The method `style.setProperty` on a declaration list. -/
def styleSet (name : String) (v : CssText) (st : List (String × CssText)) :
    List (String × CssText) :=
  (name, v) :: st.filter (fun d => d.1 != name)

/-- The method `style.getPropertyValue` on a declaration list. -/
def styleGet (name : String) : List (String × CssText) → Option CssText
  | [] => none
  | d :: ds => if d.1 = name then some d.2 else styleGet name ds

/-- The call `el.style.setProperty(name, v)`. -/
def setProperty (el : Nat) (name : String) (v : CssText) (doc : Document) : Document :=
  doc.modify (fun e => { e with style := styleSet name v e.style }) el

/-- The call `el.style.getPropertyValue(name)`. -/
def getPropertyValue (el : Nat) (name : String) (doc : Document) : Option CssText :=
  match doc[el]? with
  | some e => styleGet name e.style
  | none => none

/-- First position, counted from `i`, of an element satisfying `p`. -/
def findFrom (p : Elem → Bool) : Nat → List Elem → Option Nat
  | _, [] => none
  | i, e :: es => if p e then some i else findFrom p (i + 1) es

/-- The call `document.getElementById(s)`: the first element in tree order whose
id is `s`; the empty string matches nothing. -/
def getElementById (s : String) (doc : Document) : Option Nat :=
  if s = "" then none else findFrom (fun e => e.id == s) 0 doc

/-- The call `document.querySelectorAll("." + c)`: all elements of class `c`, in tree order. -/
def querySelectorAll (c : String) (doc : Document) : List Nat :=
  (List.range doc.length).filter (fun i => hasClass c i doc)

/-- Whether `anc` is reached from `n` by following `parent` at most `fuel` times. -/
def isAncestor (doc : Document) (anc : Nat) : Nat → Nat → Bool
  | 0, _ => false
  | fuel + 1, n =>
    match (doc[n]?).bind (fun e => e.parent) with
    | none => false
    | some q => q == anc || isAncestor doc anc fuel q

/-- Whether `n` is a proper descendant of `el`. -/
def isDescendant (doc : Document) (el n : Nat) : Bool :=
  isAncestor doc el doc.length n

/-- The call `el.querySelector("." + c)`: the first descendant of `el` of class `c`. -/
def querySelector (c : String) (el : Nat) (doc : Document) : Option Nat :=
  ((List.range doc.length).filter
    (fun i => isDescendant doc el i && hasClass c i doc)).head?

/-- The call `el.querySelectorAll("img")`: the descendants of `el` with tag `img`. -/
def querySelectorAllImg (el : Nat) (doc : Document) : List Nat :=
  (List.range doc.length).filter
    (fun i => isDescendant doc el i &&
      (match doc[i]? with
       | some e => e.tag == "img"
       | none => false))

/-- The reading `el.getBoundingClientRect().width`. -/
def boundingRectWidth (el : Nat) (doc : Document) : ℚ :=
  match doc[el]? with
  | some e => e.rectWidth
  | none => 0

/-- The reading `el.scrollWidth`. -/
def scrollWidthOf (el : Nat) (doc : Document) : ℚ :=
  match doc[el]? with
  | some e => e.scrollWidth
  | none => 0

/-- The reading `img.complete`. -/
def isComplete (el : Nat) (doc : Document) : Bool :=
  match doc[el]? with
  | some e => e.complete
  | none => false

/-! ## Stack marquee sizing -/

/-- The operator `a || b` on numbers: `a` when it is truthy (non-zero), else `b`. -/
def jsOr (a b : ℚ) : ℚ := if a ≠ 0 then a else b

/-- The local `seqWidth` of `_computeAndApplyMarqueeDuration`:
`Math.max(1, rectWidth || seq.scrollWidth || 1)`. -/
def seqWidth (rectWidth scrollWidth : ℚ) : ℚ :=
  max 1 (jsOr (jsOr rectWidth scrollWidth) 1)

/-- The function `_computeAndApplyMarqueeDuration(marqueeEl)`, on the document. -/
def _computeAndApplyMarqueeDuration (marqueeEl : Nat) (doc : Document) : Document :=
  match querySelector "stack-track" marqueeEl doc, querySelector "stack-seq" marqueeEl doc with
  | some _, some seq =>
    let rectWidth := boundingRectWidth seq doc
    let seqWidth := InkUi.seqWidth rectWidth (scrollWidthOf seq doc)
    let pxPerSecond : ℚ := 60
    let duration := max 10 (min 60 (seqWidth / pxPerSecond))
    let doc1 := setProperty marqueeEl "--stack-duration" ⟨"", duration, "s"⟩ doc
    setProperty marqueeEl "--marquee-width" ⟨"-", seqWidth, "px"⟩ doc1
  | _, _ => doc

/-- The function `_restartMarquee(marqueeEl)`; reading `offsetWidth` changes nothing. -/
def _restartMarquee (marqueeEl : Nat) (doc : Document) : Document :=
  classAdd "is-ready" marqueeEl (classRemove "is-ready" marqueeEl doc)

/-- A marquee with a track and a sequence node of the given measurements. -/
def marqueeDoc (rect scroll : ℚ) : Document :=
  [ { id := "", tag := "div", parent := none, classList := ["stack-marquee"], style := [],
      rectWidth := 300, scrollWidth := 300, complete := false },
    { id := "", tag := "div", parent := some 0, classList := ["stack-track"], style := [],
      rectWidth := 300, scrollWidth := 300, complete := false },
    { id := "", tag := "div", parent := some 1, classList := ["stack-seq"], style := [],
      rectWidth := rect, scrollWidth := scroll, complete := false } ]

/-! ## The page: document, timers, promises, observers -/

/-- A timer callback, by the arrow function it is and what that captured. -/
inductive Callback where
  /-- The `resolve` passed to `setTimeout` in `_waitForImages` (promise `w`). -/
  | waitTimeout (w : Nat)
  /-- The debounced recomputation scheduled by the resize observer. -/
  | resizeDebounce (marqueeEl : Nat)
  /-- The removal of the active state scheduled by `playInkWipe`. -/
  | inkWipeEnd (el : Nat)
deriving DecidableEq

/-- A pending timer: its handle, the time it is due and its callback. -/
structure Timer where
  id : Nat
  due : Nat
  cb : Callback
deriving DecidableEq

/-- A queued microtask. -/
inductive Microtask where
  /-- The `then` callback of `_waitForImages` (promise `w`, handle `timer`). -/
  | checkEarly (w : Nat) (timer : Nat)
  /-- The rest of the animation-frame callback after its `await`. -/
  | resume (marqueeEl : Nat)
deriving DecidableEq

/-- The two image events `_waitForImages` listens to. -/
inductive ImgEvent where
  | load
  | error
deriving DecidableEq

/-- A `once` listener calling `finish` of promise `w`. -/
structure Listener where
  target : Nat
  kind : ImgEvent
  w : Nat
deriving DecidableEq

/-- The promise made by one call of `_waitForImages`, with the variable
`remaining` its closures share and the marquee whose callback awaits it. -/
structure Wait where
  remaining : Int
  resolved : Bool
  awaiting : Option Nat
deriving DecidableEq

/-- The object `{ ro, resizeTimer }` kept per marquee. -/
structure MarqueeSt where
  ro : Option Nat
  resizeTimer : Nat
deriving DecidableEq

/-- A resize observer made by `initStackMarquees`: the marquee and the state
object its callback captured, and the nodes it observes. -/
structure ResizeObs where
  marqueeEl : Nat
  state : Nat
  observed : List Nat
deriving DecidableEq

/-- A call of `scrollIntoView` received by the browser. -/
structure ScrollCall where
  target : Nat
  behavior : String
  block : String
deriving DecidableEq

/-- An entry handed to the intersection callback. -/
structure Entry where
  target : Nat
  isIntersecting : Bool
deriving DecidableEq

/-- The state of the page as far as `ink.js` reads or writes it. -/
structure Page where
  doc : Document
  /-- The element `document.body`. -/
  body : Nat
  /-- The clock, in milliseconds. -/
  now : Nat
  /-- How many timers were created so far; handles are positive. -/
  timerCount : Nat
  timers : List Timer
  microtasks : List Microtask
  /-- The callbacks handed to `requestAnimationFrame`, by the marquee captured. -/
  rafQueue : List Nat
  listeners : List Listener
  waits : List Wait
  /-- The state objects created by `initStackMarquees`. -/
  states : List MarqueeSt
  /-- The side-table `_marqueeState`: element, state object. -/
  _marqueeState : List (Nat × Nat)
  resizeObservers : List ResizeObs
  /-- Whether `typeof ResizeObserver !== "undefined"`. -/
  hasResizeObserver : Bool
  /-- The observed set of each intersection observer. -/
  intersectionObservers : List (List Nat)
  scrollLog : List ScrollCall

/-- The call `window.setTimeout(cb, delay)`: returns the new handle. -/
def setTimeout (cb : Callback) (delay : Nat) (p : Page) : Nat × Page :=
  (p.timerCount + 1,
   { p with timerCount := p.timerCount + 1,
            timers := p.timers ++ [⟨p.timerCount + 1, p.now + delay, cb⟩] })

/-- The call `window.clearTimeout(id)`. -/
def clearTimeout (id : Nat) (p : Page) : Page :=
  { p with timers := p.timers.filter (fun t => t.id != id) }

/-- Queue a microtask. -/
def queueMicrotask (m : Microtask) (p : Page) : Page :=
  { p with microtasks := p.microtasks ++ [m] }

/-- Apply a change of the document to the page. -/
def onDoc (f : Document → Document) (p : Page) : Page :=
  { p with doc := f p.doc }

/-! ## Reveal on scroll -/

/-- The call `observer.observe(el)` on observer `k`. -/
def observe (k el : Nat) (p : Page) : Page :=
  { p with intersectionObservers :=
      p.intersectionObservers.modify (fun s => if el ∈ s then s else s ++ [el]) k }

/-- The call `observer.unobserve(el)` on observer `k`. -/
def unobserve (k el : Nat) (p : Page) : Page :=
  { p with intersectionObservers :=
      p.intersectionObservers.modify (fun s => s.filter (fun x => x != el)) k }

/-- The observed set of observer `k`. -/
def observedBy (k : Nat) (p : Page) : List Nat :=
  (p.intersectionObservers[k]?).getD []

/-- The body of the loop in the intersection callback of observer `k`. -/
def revealEntry (k : Nat) (p : Page) (e : Entry) : Page :=
  if e.isIntersecting then
    unobserve k e.target (onDoc (classAdd "is-in" e.target) p)
  else p

/-- The intersection callback of the observer `k` created by `observeReveals`. -/
def revealCallback (k : Nat) (entries : List Entry) (p : Page) : Page :=
  entries.foldl (revealEntry k) p

/-- The function `observeReveals()`. -/
def observeReveals (p : Page) : Page :=
  let els := querySelectorAll "reveal" p.doc
  if els.length = 0 then p
  else
    let k := p.intersectionObservers.length
    let p1 := { p with intersectionObservers := p.intersectionObservers ++ [[]] }
    els.foldl (fun q el => observe k el q) p1

/-- Successive deliveries of entries to observer `k`. -/
def deliver (k : Nat) (batches : List (List Entry)) (p : Page) : Page :=
  batches.foldl (fun q es => revealCallback k es q) p

/-! ## Waiting for the images of a marquee -/

/-- The function `resolve` of promise `w`: settles it once, and queues the
continuation of the callback awaiting it, if there is one. -/
def resolve (w : Nat) (p : Page) : Page :=
  match p.waits[w]? with
  | none => p
  | some s =>
    if s.resolved then p
    else
      let p1 := { p with waits := p.waits.modify (fun x => { x with resolved := true }) w }
      match s.awaiting with
      | some marqueeEl => queueMicrotask (.resume marqueeEl) p1
      | none => p1

/-- The variable `remaining` of promise `w`. -/
def remainingOf (w : Nat) (p : Page) : Int :=
  match p.waits[w]? with
  | some s => s.remaining
  | none => 0

/-- The closure `finish` of promise `w`. -/
def finish (w : Nat) (p : Page) : Page :=
  let p1 := { p with waits := p.waits.modify (fun x => { x with remaining := x.remaining - 1 }) w }
  if remainingOf w p1 ≤ 0 then resolve w p1 else p1

/-- The body of `imgs.forEach` in `_waitForImages`. -/
def waitImg (w : Nat) (p : Page) (img : Nat) : Page :=
  if isComplete img p.doc then finish w p
  else
    { p with listeners := p.listeners ++ [⟨img, .load, w⟩, ⟨img, .error, w⟩] }

/-- The function `_waitForImages(marqueeEl, timeoutMs)`: returns the promise. -/
def _waitForImages (marqueeEl : Nat) (timeoutMs : Nat) (p : Page) : Nat × Page :=
  let imgs := querySelectorAllImg marqueeEl p.doc
  if imgs.length = 0 then
    (p.waits.length, { p with waits := p.waits ++ [⟨0, true, none⟩] })
  else
    let w := p.waits.length
    let p1 := { p with waits := p.waits ++ [⟨imgs.length, false, none⟩] }
    let (timer, p2) := setTimeout (.waitTimeout w) timeoutMs p1
    let p3 := imgs.foldl (waitImg w) p2
    (w, queueMicrotask (.checkEarly w timer) p3)

/-- The `then` callback at the end of `_waitForImages`. -/
def checkEarly (w timer : Nat) (p : Page) : Page :=
  if remainingOf w p ≤ 0 then resolve w (clearTimeout timer p) else p

/-- Whether promise `w` is settled. -/
def isResolved (w : Nat) (p : Page) : Bool :=
  match p.waits[w]? with
  | some s => s.resolved
  | none => false

/-- Whether a timer with handle `id` is pending. -/
def timerPending (id : Nat) (p : Page) : Bool :=
  p.timers.any (fun t => t.id == id)

/-- The rest of the animation-frame callback of `initStackMarquees` after its `await`. -/
def resumeMarquee (marqueeEl : Nat) (p : Page) : Page :=
  onDoc (classAdd "is-ready" marqueeEl) (onDoc (_computeAndApplyMarqueeDuration marqueeEl) p)

/-- The animation-frame callback of `initStackMarquees`, up to its `await`. -/
def startMarquee (marqueeEl : Nat) (p : Page) : Page :=
  let (w, p1) := _waitForImages marqueeEl 900 p
  if isResolved w p1 then queueMicrotask (.resume marqueeEl) p1
  else { p1 with waits := p1.waits.modify (fun x => { x with awaiting := some marqueeEl }) w }

/-- Run one microtask. -/
def runMicrotask (m : Microtask) (p : Page) : Page :=
  match m with
  | .checkEarly w timer => checkEarly w timer p
  | .resume marqueeEl => resumeMarquee marqueeEl p

/-- Run queued microtasks, oldest first, at most `fuel` of them. -/
def drain : Nat → Page → Page
  | 0, p => p
  | fuel + 1, p =>
    match p.microtasks with
    | [] => p
    | m :: ms => drain fuel (runMicrotask m { p with microtasks := ms })

/-- The steps a microtask may still cause: a `checkEarly` may queue one `resume`. -/
def microWeight : Microtask → Nat
  | .checkEarly _ _ => 2
  | .resume _ => 1

/-- Empty the microtask queue, as the event loop does after every task. -/
def drainMicrotasks (p : Page) : Page :=
  drain ((p.microtasks.map microWeight).sum) p

/-- A task: the code runs, then the microtask queue is emptied. -/
def task (f : Page → Page) (p : Page) : Page :=
  drainMicrotasks (f p)

/-- The browser delivers the event `kind` on image `img`: its `once` listeners
are removed and run. -/
def dispatchImg (kind : ImgEvent) (img : Nat) (p : Page) : Page :=
  let hit := p.listeners.filter (fun l => l.target == img && l.kind == kind)
  let p1 := { p with listeners := p.listeners.filter (fun l => !(l.target == img && l.kind == kind)) }
  hit.foldl (fun q l => finish l.w q) p1

/-! ## Initialising the marquees -/

/-- The method `_marqueeState.has(el)`. -/
def marqueeHas (el : Nat) (p : Page) : Bool :=
  p._marqueeState.any (fun kv => kv.1 == el)

/-- The body of `marquees.forEach` in `initStackMarquees`. -/
def initMarquee (p : Page) (marqueeEl : Nat) : Page :=
  if marqueeHas marqueeEl p then p
  else
    let state := p.states.length
    let p1 := { p with states := p.states ++ [(⟨none, 0⟩ : MarqueeSt)],
                       _marqueeState := p._marqueeState ++ [(marqueeEl, state)] }
    let p2 := { p1 with rafQueue := p1.rafQueue ++ [marqueeEl] }
    match querySelector "stack-seq" marqueeEl p2.doc with
    | some seq =>
      if p2.hasResizeObserver then
        let r := p2.resizeObservers.length
        { p2 with states := p2.states.modify (fun s => { s with ro := some r }) state,
                  resizeObservers := p2.resizeObservers ++ [⟨marqueeEl, state, [seq]⟩] }
      else p2
    | none => p2

/-- The function `initStackMarquees()`. -/
def initStackMarquees (p : Page) : Page :=
  let marquees := querySelectorAll "stack-marquee" p.doc
  if marquees.length = 0 then p
  else marquees.foldl initMarquee p

/-- The callback of resize observer `r`. -/
def resizeCallback (r : Nat) (p : Page) : Page :=
  match p.resizeObservers[r]? with
  | none => p
  | some o =>
    match p.states[o.state]? with
    | none => p
    | some s =>
      let p1 := clearTimeout s.resizeTimer p
      let (id, p2) := setTimeout (.resizeDebounce o.marqueeEl) 120 p1
      { p2 with states := p2.states.modify (fun x => { x with resizeTimer := id }) o.state }

/-- The timer callback scheduled by the resize observer. -/
def resizeDebounced (marqueeEl : Nat) (p : Page) : Page :=
  let p1 := onDoc (_computeAndApplyMarqueeDuration marqueeEl) p
  if hasClass "is-ready" marqueeEl p1.doc then onDoc (_restartMarquee marqueeEl) p1 else p1

/-! ## Scroll to section -/

/-- The expression `id || ""` on an argument that may be null or undefined. -/
def orEmpty (id : Option String) : String :=
  match id with
  | some s => if s = "" then "" else s
  | none => ""

/-- The call `s.replace(/^#/, "")`: one leading `#` is dropped. -/
def stripHash (s : String) : String :=
  match s.data with
  | '#' :: rest => String.mk rest
  | _ => s

/-- The call `el.scrollIntoView({ behavior, block })`, recorded. -/
def scrollIntoView (el : Nat) (behavior block : String) (p : Page) : Page :=
  { p with scrollLog := p.scrollLog ++ [⟨el, behavior, block⟩] }

/-- The function `scrollToId(id)`. -/
def scrollToId (id : Option String) (p : Page) : Page :=
  let safeId := stripHash (orEmpty id)
  if safeId = "" then p
  else
    match getElementById safeId p.doc with
    | none => p
    | some el => scrollIntoView el "auto" "start" p

/-! ## Ink wipe -/

/-- The timer callback of `playInkWipe`. -/
def inkWipeEnd (el : Nat) (p : Page) : Page :=
  onDoc (classRemove "no-scroll" p.body) (onDoc (classRemove "is-active" el) p)

/-- The function `playInkWipe()`: returns the duration in milliseconds. -/
def playInkWipe (p : Page) : Nat × Page :=
  match getElementById "inkWipe" p.doc with
  | none => (0, p)
  | some el =>
    let p1 := onDoc (classAdd "no-scroll" p.body) p
    let p2 := onDoc (classAdd "is-active" el) p1
    let duration := 560
    let (_, p3) := setTimeout (.inkWipeEnd el) duration p2
    (duration, p3)

/-! ## Timers firing -/

/-- Run a timer callback. -/
def runCallback (cb : Callback) (p : Page) : Page :=
  match cb with
  | .waitTimeout w => resolve w p
  | .resizeDebounce marqueeEl => resizeDebounced marqueeEl p
  | .inkWipeEnd el => inkWipeEnd el p

/-- The timer that fires next on the way to time `t`: the earliest due, and
among equals the one set first. -/
def nextDue (t : Nat) : List Timer → Option Timer
  | [] => none
  | x :: xs =>
    match nextDue t xs with
    | none => if x.due ≤ t then some x else none
    | some y => if x.due ≤ y.due then some x else some y

/-- The timer `x` fires: it leaves the pending list, the clock reaches its due
time, its callback runs as a task. -/
def fireTimer (x : Timer) (p : Page) : Page :=
  task (runCallback x.cb) { p with timers := p.timers.erase x, now := max p.now x.due }

/-- Time passes until `t`: the timers due by then fire in order, at most `fuel` of them. -/
def advance : Nat → Nat → Page → Page
  | 0, t, p => { p with now := max p.now t }
  | fuel + 1, t, p =>
    match nextDue t p.timers with
    | none => { p with now := max p.now t }
    | some x => advance fuel t (fireTimer x p)

/-- Time passes until `t`; no callback sets a timer, so the pending ones bound the work. -/
def advanceTo (t : Nat) (p : Page) : Page :=
  advance p.timers.length t p

/-! ## Pages to evaluate on -/

/-- A page just loaded: the document, its body, and nothing registered yet. -/
def freshPage (doc : Document) (body : Nat) : Page :=
  { doc := doc, body := body, now := 0, timerCount := 0, timers := [], microtasks := [],
    rafQueue := [], listeners := [], waits := [], states := [], _marqueeState := [],
    resizeObservers := [], hasResizeObserver := true, intersectionObservers := [],
    scrollLog := [] }

/-- An element with the given id, tag, parent and classes, and no style. -/
def elemOf (id tag : String) (parent : Option Nat) (classes : List String) : Elem :=
  { id := id, tag := tag, parent := parent, classList := classes, style := [],
    rectWidth := 0, scrollWidth := 0, complete := false }

/-- A body with one section whose id begins with the anchor marker. -/
def hashIdDoc : Document :=
  [elemOf "" "body" none [], elemOf "#a" "section" (some 0) []]

/-- A body with one section of id `section1`. -/
def sectionDoc : Document :=
  [elemOf "" "body" none [], elemOf "section1" "section" (some 0) []]

/-- A body with the overlay node `inkWipe`. -/
def wipeDoc : Document :=
  [elemOf "" "body" none [], elemOf "inkWipe" "div" (some 0) ["ink-wipe"]]

/-- A marquee (element 0) whose sequence holds one image (element 3), loaded or not. -/
def imgDoc (complete : Bool) : Document :=
  [elemOf "" "div" none ["stack-marquee"], elemOf "" "div" (some 0) ["stack-track"],
   elemOf "" "div" (some 1) ["stack-seq"],
   { id := "", tag := "img", parent := some 2, classList := [], style := [],
     rectWidth := 0, scrollWidth := 0, complete := complete }]

/-- The animation-frame callback of marquee 0 has run on a page whose image is
still loading; 100 ms later the image fires `load`. -/
def imgLoadedAt100 : Page :=
  task (dispatchImg .load 3) (advanceTo 100 (task (startMarquee 0) (freshPage (imgDoc false) 0)))

/-- A body with two revealable sections. -/
def revealDoc : Document :=
  [elemOf "" "body" none [], elemOf "" "section" (some 0) ["reveal"],
   elemOf "" "section" (some 0) ["reveal"]]

/-! ## Relations between pages used in the proofs -/

/-- No queued microtask is a `checkEarly`: only continuations are waiting. -/
def onlyResume (p : Page) : Prop :=
  ∀ m ∈ p.microtasks, ∃ el, m = Microtask.resume el

/-- The page `q` differs from `p` at most by what callbacks of the marquee and
the end of an ink wipe do to the document: same body, same ids, same clock, and
no class other than `is-ready` was added anywhere. -/
structure Calm (p q : Page) : Prop where
  body : q.body = p.body
  ids : q.doc.map Elem.id = p.doc.map Elem.id
  now : q.now = p.now
  off : ∀ c i, c ≠ "is-ready" → hasClass c i p.doc = false → hasClass c i q.doc = false

/-! ## Lemmas on the document -/

theorem getElem?_classAdd (c : String) (el i : Nat) (doc : Document) :
    (classAdd c el doc)[i]? =
      if el = i then (doc[i]?).map (fun e => { e with classList := classListAdd c e.classList })
      else doc[i]? := by
  unfold classAdd
  rw [List.getElem?_modify]
  split <;> simp_all

theorem getElem?_classRemove (c : String) (el i : Nat) (doc : Document) :
    (classRemove c el doc)[i]? =
      if el = i then (doc[i]?).map (fun e => { e with classList := classListRemove c e.classList })
      else doc[i]? := by
  unfold classRemove
  rw [List.getElem?_modify]
  split <;> simp_all

theorem getElem?_setProperty (el : Nat) (name : String) (v : CssText) (i : Nat) (doc : Document) :
    (setProperty el name v doc)[i]? =
      if el = i then (doc[i]?).map (fun e => { e with style := styleSet name v e.style })
      else doc[i]? := by
  unfold setProperty
  rw [List.getElem?_modify]
  split <;> simp_all

theorem mem_classListAdd (c d : String) (l : List String) :
    c ∈ classListAdd d l ↔ c = d ∨ c ∈ l := by
  unfold classListAdd
  split
  · constructor
    · intro h; exact Or.inr h
    · rintro (h | h)
      · subst h; assumption
      · exact h
  · simp [or_comm]

theorem mem_classListRemove (c d : String) (l : List String) :
    c ∈ classListRemove d l ↔ c ≠ d ∧ c ∈ l := by
  unfold classListRemove
  simp [and_comm]

theorem hasClass_classAdd (c d : String) (el i : Nat) (doc : Document) :
    hasClass c i (classAdd d el doc) = (hasClass c i doc || (decide (el = i ∧ c = d ∧ i < doc.length))) := by
  unfold hasClass
  rw [getElem?_classAdd]
  by_cases h : el = i
  · subst h
    cases hd : doc[el]? with
    | none =>
      have : ¬ el < doc.length := by
        intro hlt
        rw [List.getElem?_eq_getElem hlt] at hd
        exact Option.noConfusion hd
      simp [this]
    | some e =>
      have hlt : el < doc.length := by
        by_contra hlt
        rw [List.getElem?_eq_none (Nat.le_of_not_lt hlt)] at hd
        exact Option.noConfusion hd
      by_cases hc : c = d <;> by_cases hm : c ∈ e.classList <;>
        simp [mem_classListAdd, hlt, hc, hm]
  · simp [h]

theorem hasClass_classRemove (c d : String) (el i : Nat) (doc : Document) :
    hasClass c i (classRemove d el doc) = (hasClass c i doc && !(decide (el = i ∧ c = d))) := by
  unfold hasClass
  rw [getElem?_classRemove]
  by_cases h : el = i
  · subst h
    cases hd : doc[el]? with
    | none => simp
    | some e =>
      by_cases hc : c = d <;> by_cases hm : c ∈ e.classList <;>
        simp [mem_classListRemove, hc, hm]
  · simp [h]

theorem hasClass_setProperty (c : String) (i el : Nat) (name : String) (v : CssText)
    (doc : Document) : hasClass c i (setProperty el name v doc) = hasClass c i doc := by
  unfold hasClass
  rw [getElem?_setProperty]
  by_cases h : el = i
  · subst h
    cases hd : doc[el]? <;> simp
  · simp [h]

theorem hasClass_compute (c : String) (i el : Nat) (doc : Document) :
    hasClass c i (_computeAndApplyMarqueeDuration el doc) = hasClass c i doc := by
  unfold _computeAndApplyMarqueeDuration
  split
  · simp only [hasClass_setProperty]
  · rfl

theorem styleGet_styleSet_self (name : String) (v : CssText) (st : List (String × CssText)) :
    styleGet name (styleSet name v st) = some v := by
  simp [styleSet, styleGet]

theorem styleGet_filter_ne (name other : String) (h : name ≠ other)
    (st : List (String × CssText)) :
    styleGet name (st.filter (fun d => d.1 != other)) = styleGet name st := by
  induction st with
  | nil => rfl
  | cons d ds ih =>
    rw [List.filter_cons]
    by_cases hd : d.1 = other
    · have hne : ¬ d.1 = name := fun e => h (e.symm.trans hd)
      have hb : (d.1 != other) = false := by simpa using hd
      rw [hb]
      simp only [Bool.false_eq_true, if_false]
      rw [ih]
      simp only [styleGet, hne, if_false]
    · have hb : (d.1 != other) = true := by simpa using hd
      rw [hb]
      simp only [if_true, styleGet, ih]

theorem styleGet_styleSet_ne (name other : String) (h : name ≠ other) (v : CssText)
    (st : List (String × CssText)) :
    styleGet name (styleSet other v st) = styleGet name st := by
  have hne : ¬ other = name := fun e => h e.symm
  simp [styleSet, styleGet, hne, styleGet_filter_ne name other h]

theorem getPropertyValue_setProperty_self (el : Nat) (name : String) (v : CssText)
    (doc : Document) (h : el < doc.length) :
    getPropertyValue el name (setProperty el name v doc) = some v := by
  unfold getPropertyValue
  rw [getElem?_setProperty]
  simp [List.getElem?_eq_getElem h, styleGet_styleSet_self]

theorem getPropertyValue_setProperty_ne (el i : Nat) (name other : String) (hne : name ≠ other)
    (v : CssText) (doc : Document) :
    getPropertyValue i name (setProperty el other v doc) = getPropertyValue i name doc := by
  unfold getPropertyValue
  rw [getElem?_setProperty]
  by_cases h : el = i
  · subst h
    cases hd : doc[el]? <;> simp [styleGet_styleSet_ne name other hne]
  · simp [h]

theorem length_setProperty (el : Nat) (name : String) (v : CssText) (doc : Document) :
    (setProperty el name v doc).length = doc.length := by
  simp [setProperty]

/-! ## Lemmas on the marquee arithmetic -/

theorem jsOr_of_ne_zero (a b : ℚ) (h : a ≠ 0) : jsOr a b = a := by
  simp [jsOr, h]

theorem jsOr_zero (b : ℚ) : jsOr 0 b = b := by
  simp [jsOr]

theorem one_le_seqWidth (r s : ℚ) : 1 ≤ seqWidth r s := by
  unfold seqWidth
  exact le_max_left _ _

theorem seqWidth_of_pos (r s : ℚ) (h : 0 < r) : seqWidth r s = max 1 r := by
  have hr : r ≠ 0 := ne_of_gt h
  simp [seqWidth, jsOr_of_ne_zero, hr]

theorem clamp_max_one (w : ℚ) :
    max 10 (min 60 (max 1 w / 60)) = max 10 (min 60 (w / 60)) := by
  rcases le_total 1 w with h1 | h1
  · rw [max_eq_right h1]
  · rw [max_eq_left h1]
    have e1 : min (60 : ℚ) (1 / 60) = 1 / 60 := min_eq_right (by norm_num)
    have hw : w / 60 ≤ 60 := by linarith
    have e2 : min (60 : ℚ) (w / 60) = w / 60 := min_eq_right hw
    rw [e1, e2, max_eq_left (by norm_num), max_eq_left (by linarith)]

/-- What `_computeAndApplyMarqueeDuration` writes when both sub-nodes exist. -/
theorem compute_properties (doc : Document) (marqueeEl track seq : Nat)
    (hel : marqueeEl < doc.length)
    (ht : querySelector "stack-track" marqueeEl doc = some track)
    (hs : querySelector "stack-seq" marqueeEl doc = some seq) :
    getPropertyValue marqueeEl "--stack-duration" (_computeAndApplyMarqueeDuration marqueeEl doc)
      = some ⟨"", max 10 (min 60
          (seqWidth (boundingRectWidth seq doc) (scrollWidthOf seq doc) / 60)), "s"⟩ ∧
    getPropertyValue marqueeEl "--marquee-width" (_computeAndApplyMarqueeDuration marqueeEl doc)
      = some ⟨"-", seqWidth (boundingRectWidth seq doc) (scrollWidthOf seq doc), "px"⟩ := by
  unfold _computeAndApplyMarqueeDuration
  rw [ht, hs]
  simp only []
  constructor
  · rw [getPropertyValue_setProperty_ne _ _ _ _ (by decide),
      getPropertyValue_setProperty_self _ _ _ _ hel]
  · rw [getPropertyValue_setProperty_self _ _ _ _ (by rw [length_setProperty]; exact hel)]

/-! ## Properties of the marquee sizing -/

/-- C1, as stated, fails: for a sequence node whose bounding-rect width is the
positive sub-pixel value 1/2, `_computeAndApplyMarqueeDuration` sets
`--marquee-width` to `-1px`, not to `-0.5px`. -/
theorem marquee_width_subpixel_counterexample :
    querySelector "stack-track" 0 (marqueeDoc (1 / 2) 0) = some 1 ∧
    querySelector "stack-seq" 0 (marqueeDoc (1 / 2) 0) = some 2 ∧
    boundingRectWidth 2 (marqueeDoc (1 / 2) 0) = 1 / 2 ∧
    (0 : ℚ) < 1 / 2 ∧
    getPropertyValue 0 "--marquee-width"
        (_computeAndApplyMarqueeDuration 0 (marqueeDoc (1 / 2) 0)) = some ⟨"-", 1, "px"⟩ ∧
    getPropertyValue 0 "--marquee-width"
        (_computeAndApplyMarqueeDuration 0 (marqueeDoc (1 / 2) 0)) ≠ some ⟨"-", 1 / 2, "px"⟩ := by
  have hv : getPropertyValue 0 "--marquee-width"
      (_computeAndApplyMarqueeDuration 0 (marqueeDoc (1 / 2) 0)) = some ⟨"-", 1, "px"⟩ := by
    rw [(compute_properties (marqueeDoc (1 / 2) 0) 0 1 2 (by decide) (by decide) (by decide)).2]
    have e : seqWidth (boundingRectWidth 2 (marqueeDoc (1 / 2) 0))
        (scrollWidthOf 2 (marqueeDoc (1 / 2) 0)) = 1 := by
      show seqWidth (1 / 2) 0 = 1
      rw [seqWidth_of_pos _ _ (by norm_num)]
      norm_num
    rw [e]
  refine ⟨by decide, by decide, rfl, by norm_num, hv, ?_⟩
  rw [hv]
  intro h
  have h2 : (1 : ℚ) = 1 / 2 := congrArg CssText.num (Option.some.inj h)
  norm_num at h2

/-- C1, amended: for a marquee with a track and a sequence node whose bounding-rect
width is `W > 0`, `_computeAndApplyMarqueeDuration` sets `--stack-duration` to
`max(10, min(60, W / 60))` seconds and `--marquee-width` to minus `max(1, W)` pixels,
which is exactly `-W` pixels whenever `W ≥ 1`. -/
theorem marquee_duration_and_width (doc : Document) (marqueeEl track seq : Nat) (W : ℚ)
    (hel : marqueeEl < doc.length)
    (ht : querySelector "stack-track" marqueeEl doc = some track)
    (hs : querySelector "stack-seq" marqueeEl doc = some seq)
    (hW : boundingRectWidth seq doc = W) (hpos : 0 < W) :
    getPropertyValue marqueeEl "--stack-duration" (_computeAndApplyMarqueeDuration marqueeEl doc)
      = some ⟨"", max 10 (min 60 (W / 60)), "s"⟩ ∧
    getPropertyValue marqueeEl "--marquee-width" (_computeAndApplyMarqueeDuration marqueeEl doc)
      = some ⟨"-", max 1 W, "px"⟩ ∧
    (1 ≤ W →
      getPropertyValue marqueeEl "--marquee-width" (_computeAndApplyMarqueeDuration marqueeEl doc)
        = some ⟨"-", W, "px"⟩) := by
  obtain ⟨h1, h2⟩ := compute_properties doc marqueeEl track seq hel ht hs
  rw [hW, seqWidth_of_pos _ _ hpos] at h1 h2
  rw [clamp_max_one] at h1
  refine ⟨h1, h2, ?_⟩
  intro hge
  rw [h2, max_eq_right hge]

/-- Witness for C1, amended: a sequence node 1200 pixels wide. -/
theorem marquee_duration_and_width_witness :
    getPropertyValue 0 "--stack-duration" (_computeAndApplyMarqueeDuration 0 (marqueeDoc 1200 0))
      = some ⟨"", max 10 (min 60 (1200 / 60)), "s"⟩ ∧
    getPropertyValue 0 "--marquee-width" (_computeAndApplyMarqueeDuration 0 (marqueeDoc 1200 0))
      = some ⟨"-", max 1 1200, "px"⟩ ∧
    ((1 : ℚ) ≤ 1200 →
      getPropertyValue 0 "--marquee-width" (_computeAndApplyMarqueeDuration 0 (marqueeDoc 1200 0))
        = some ⟨"-", 1200, "px"⟩) :=
  marquee_duration_and_width (marqueeDoc 1200 0) 0 1 2 1200 (by decide) (by decide) (by decide)
    rfl (by norm_num)

/-- C2: in `_computeAndApplyMarqueeDuration` the width `w` used for the duration and
for the offset is at least 1 for all measurements; it is taken from the rect width
when that is non-zero, else from `scrollWidth` when that is non-zero, else it is 1;
in particular it is exactly 1 when both measurements are 0. -/
theorem marquee_width_used_fallback (doc : Document) (marqueeEl track seq : Nat)
    (hel : marqueeEl < doc.length)
    (ht : querySelector "stack-track" marqueeEl doc = some track)
    (hs : querySelector "stack-seq" marqueeEl doc = some seq) :
    ∃ w : ℚ,
      getPropertyValue marqueeEl "--stack-duration"
          (_computeAndApplyMarqueeDuration marqueeEl doc)
        = some ⟨"", max 10 (min 60 (w / 60)), "s"⟩ ∧
      getPropertyValue marqueeEl "--marquee-width"
          (_computeAndApplyMarqueeDuration marqueeEl doc) = some ⟨"-", w, "px"⟩ ∧
      1 ≤ w ∧
      (boundingRectWidth seq doc ≠ 0 → w = max 1 (boundingRectWidth seq doc)) ∧
      (boundingRectWidth seq doc = 0 → scrollWidthOf seq doc ≠ 0 →
        w = max 1 (scrollWidthOf seq doc)) ∧
      (boundingRectWidth seq doc = 0 → scrollWidthOf seq doc = 0 → w = 1) := by
  obtain ⟨h1, h2⟩ := compute_properties doc marqueeEl track seq hel ht hs
  refine ⟨seqWidth (boundingRectWidth seq doc) (scrollWidthOf seq doc), h1, h2,
    one_le_seqWidth _ _, ?_, ?_, ?_⟩
  · intro hr
    simp [seqWidth, jsOr_of_ne_zero, hr]
  · intro hr hsw
    simp [seqWidth, hr, jsOr_zero, jsOr_of_ne_zero, hsw]
  · intro hr hsw
    simp [seqWidth, hr, hsw, jsOr_zero]

/-- Witness for C2: both measurements are 0. -/
theorem marquee_width_used_fallback_witness :
    ∃ w : ℚ,
      getPropertyValue 0 "--stack-duration" (_computeAndApplyMarqueeDuration 0 (marqueeDoc 0 0))
        = some ⟨"", max 10 (min 60 (w / 60)), "s"⟩ ∧
      getPropertyValue 0 "--marquee-width" (_computeAndApplyMarqueeDuration 0 (marqueeDoc 0 0))
        = some ⟨"-", w, "px"⟩ ∧
      1 ≤ w ∧
      (boundingRectWidth 2 (marqueeDoc 0 0) ≠ 0 → w = max 1 (boundingRectWidth 2 (marqueeDoc 0 0))) ∧
      (boundingRectWidth 2 (marqueeDoc 0 0) = 0 → scrollWidthOf 2 (marqueeDoc 0 0) ≠ 0 →
        w = max 1 (scrollWidthOf 2 (marqueeDoc 0 0))) ∧
      (boundingRectWidth 2 (marqueeDoc 0 0) = 0 → scrollWidthOf 2 (marqueeDoc 0 0) = 0 → w = 1) :=
  marquee_width_used_fallback (marqueeDoc 0 0) 0 1 2 (by decide) (by decide) (by decide)

/-! ## Properties of `scrollToId` -/

theorem stripHash_hash_append (s : String) : stripHash ("#" ++ s) = s := by
  unfold stripHash
  have h : ("#" ++ s).data = '#' :: s.data := by
    rw [String.data_append]; rfl
  simp only [h]

theorem stripHash_of_not_hash (s : String) (h : s.data.head? ≠ some '#') : stripHash s = s := by
  unfold stripHash
  split
  · rename_i rest heq
    rw [heq] at h
    exact absurd rfl h
  · rfl

theorem orEmpty_some (s : String) : orEmpty (some s) = s := by
  show (if s = "" then "" else s) = s
  split
  · rename_i h; exact h.symm
  · rfl

theorem getElementById_empty (doc : Document) : getElementById "" doc = none := by
  simp [getElementById]

theorem scrollIntoView_ne (el : Nat) (b k : String) (p : Page) : scrollIntoView el b k p ≠ p := by
  intro h
  have h2 := congrArg (fun q => q.scrollLog.length) h
  simp [scrollIntoView] at h2

/-- The result of `scrollToId` in terms of the stripped identifier. -/
theorem scrollToId_eq (id : Option String) (p : Page) :
    scrollToId id p =
      match getElementById (stripHash (orEmpty id)) p.doc with
      | none => p
      | some el => scrollIntoView el "auto" "start" p := by
  unfold scrollToId
  by_cases h : stripHash (orEmpty id) = ""
  · simp [h, getElementById_empty]
  · simp [h]

/-- C4, as stated, fails: an element whose id is `#a` exists, `scrollToId("##a")`
scrolls it into view, and `scrollToId("#a")` looks for the id `a` and does nothing. -/
theorem scrollToId_hash_id_counterexample :
    getElementById "#a" (freshPage hashIdDoc 0).doc = some 1 ∧
    scrollToId (some ("#" ++ "#a")) (freshPage hashIdDoc 0)
      = scrollIntoView 1 "auto" "start" (freshPage hashIdDoc 0) ∧
    scrollToId (some "#a") (freshPage hashIdDoc 0) = freshPage hashIdDoc 0 ∧
    scrollToId (some ("#" ++ "#a")) (freshPage hashIdDoc 0)
      ≠ scrollToId (some "#a") (freshPage hashIdDoc 0) := by
  have h1 : scrollToId (some ("#" ++ "#a")) (freshPage hashIdDoc 0)
      = scrollIntoView 1 "auto" "start" (freshPage hashIdDoc 0) := by
    rw [scrollToId_eq, orEmpty_some, stripHash_hash_append]
    have : getElementById "#a" (freshPage hashIdDoc 0).doc = some 1 := by decide
    rw [this]
  have h2 : scrollToId (some "#a") (freshPage hashIdDoc 0) = freshPage hashIdDoc 0 := by
    rw [scrollToId_eq, orEmpty_some]
    have : getElementById (stripHash "#a") (freshPage hashIdDoc 0).doc = none := by decide
    rw [this]
  refine ⟨by decide, h1, h2, ?_⟩
  rw [h1, h2]
  exact scrollIntoView_ne _ _ _ _

/-- C4, amended: for every identifier `s` that does not itself begin with `#` and
names an element of the document, `scrollToId("#" + s)` and `scrollToId(s)` leave
the same page: both scroll that element into view with behavior `auto` and block
`start`. -/
theorem scrollToId_hash_same (s : String) (p : Page) (el : Nat)
    (hs : s.data.head? ≠ some '#')
    (hel : getElementById s p.doc = some el) :
    scrollToId (some ("#" ++ s)) p = scrollToId (some s) p ∧
    scrollToId (some s) p = scrollIntoView el "auto" "start" p := by
  have h1 : scrollToId (some ("#" ++ s)) p = scrollIntoView el "auto" "start" p := by
    rw [scrollToId_eq, orEmpty_some, stripHash_hash_append, hel]
  have h2 : scrollToId (some s) p = scrollIntoView el "auto" "start" p := by
    rw [scrollToId_eq, orEmpty_some, stripHash_of_not_hash s hs, hel]
  exact ⟨h1.trans h2.symm, h2⟩

/-- Witness for C4, amended: the identifier `section1`. -/
theorem scrollToId_hash_same_witness :
    scrollToId (some ("#" ++ "section1")) (freshPage sectionDoc 0)
      = scrollToId (some "section1") (freshPage sectionDoc 0) ∧
    scrollToId (some "section1") (freshPage sectionDoc 0)
      = scrollIntoView 1 "auto" "start" (freshPage sectionDoc 0) :=
  scrollToId_hash_same "section1" (freshPage sectionDoc 0) 1 (by decide) (by decide)

/-- Every identifier has a form with one leading `#` stripped: it is `"#" ++ r`
for some `r`, or it does not begin with `#` and is its own stripped form. -/
theorem stripped_exists (s : String) :
    ∃ r : String, s = "#" ++ r ∨ (s.data.head? ≠ some '#' ∧ s = r) := by
  by_cases h : s.data.head? = some '#'
  · cases hd : s.data with
    | nil =>
      rw [hd] at h
      simp at h
    | cons c cs =>
      rw [hd] at h
      have hc : c = '#' := by simpa using h
      subst hc
      refine ⟨String.mk cs, Or.inl ?_⟩
      apply String.ext
      rw [String.data_append, hd]
      rfl
  · exact ⟨s, Or.inr ⟨h, rfl⟩⟩

/-- C5: let `r` be the identifier `s` with one leading `#` stripped, that is,
`s` is `"#" ++ r`, or `s` does not begin with `#` and `r` is `s`. Then
`scrollToId(s)` leaves the page unchanged exactly when `r` is empty or names no
element; and when `r` is non-empty and names the element `el`, it scrolls: the page
changes, by exactly one `scrollIntoView` call on `el` with behavior `auto` and block
`start`. In particular `scrollToId("")`, `scrollToId("#")` and `scrollToId` of a
null or undefined argument do nothing. -/
theorem scrollToId_noop_iff (p : Page) (s r : String)
    (hr : s = "#" ++ r ∨ (s.data.head? ≠ some '#' ∧ s = r)) :
    (scrollToId (some s) p = p ↔ (r = "" ∨ getElementById r p.doc = none)) ∧
    (∀ el, r ≠ "" → getElementById r p.doc = some el →
      scrollToId (some s) p = scrollIntoView el "auto" "start" p ∧
      (scrollToId (some s) p).scrollLog = p.scrollLog ++ [⟨el, "auto", "start"⟩] ∧
      scrollToId (some s) p ≠ p) ∧
    stripHash (orEmpty (some s)) = r ∧
    scrollToId (some "") p = p ∧
    scrollToId (some "#") p = p ∧
    scrollToId none p = p := by
  have hstrip : stripHash (orEmpty (some s)) = r := by
    rw [orEmpty_some]
    rcases hr with h | ⟨h1, h2⟩
    · rw [h, stripHash_hash_append]
    · rw [stripHash_of_not_hash s h1, h2]
  have key : scrollToId (some s) p =
      match getElementById r p.doc with
      | none => p
      | some el => scrollIntoView el "auto" "start" p := by
    rw [scrollToId_eq, hstrip]
  refine ⟨?_, ?_, hstrip, ?_, ?_, ?_⟩
  · rw [key]
    constructor
    · intro h
      cases hg : getElementById r p.doc with
      | none => exact Or.inr rfl
      | some el =>
        rw [hg] at h
        exact absurd h (scrollIntoView_ne _ _ _ _)
    · rintro (h | h)
      · rw [h, getElementById_empty]
      · rw [h]
  · intro el _ hg
    rw [key, hg]
    exact ⟨rfl, rfl, scrollIntoView_ne _ _ _ _⟩
  · rw [scrollToId_eq]
    have : stripHash (orEmpty (some "")) = "" := by decide
    rw [this, getElementById_empty]
  · rw [scrollToId_eq]
    have : stripHash (orEmpty (some "#")) = "" := by decide
    rw [this, getElementById_empty]
  · rw [scrollToId_eq]
    have : stripHash (orEmpty none) = "" := by decide
    rw [this, getElementById_empty]

/-- Witness for C5: on a page whose only section is `section1`, both
`scrollToId("#section1")` and `scrollToId("section1")` scroll element 1 into view,
and `scrollToId("missing-id")`, `scrollToId("#missing-id")`, `scrollToId("")`,
`scrollToId("#")` and `scrollToId(null)` leave the page as it was. -/
theorem scrollToId_noop_iff_witness :
    scrollToId (some "#section1") (freshPage sectionDoc 0)
      = scrollIntoView 1 "auto" "start" (freshPage sectionDoc 0) ∧
    (scrollToId (some "#section1") (freshPage sectionDoc 0)).scrollLog
      = [⟨1, "auto", "start"⟩] ∧
    scrollToId (some "#section1") (freshPage sectionDoc 0) ≠ freshPage sectionDoc 0 ∧
    (scrollToId (some "section1") (freshPage sectionDoc 0)).scrollLog
      = [⟨1, "auto", "start"⟩] ∧
    scrollToId (some "missing-id") (freshPage sectionDoc 0) = freshPage sectionDoc 0 ∧
    scrollToId (some "#missing-id") (freshPage sectionDoc 0) = freshPage sectionDoc 0 ∧
    scrollToId (some "") (freshPage sectionDoc 0) = freshPage sectionDoc 0 ∧
    scrollToId (some "#") (freshPage sectionDoc 0) = freshPage sectionDoc 0 ∧
    scrollToId none (freshPage sectionDoc 0) = freshPage sectionDoc 0 :=
  have h1 := scrollToId_noop_iff (freshPage sectionDoc 0) "#section1" "section1"
    (Or.inl (by decide))
  have h2 := scrollToId_noop_iff (freshPage sectionDoc 0) "section1" "section1"
    (Or.inr ⟨by decide, rfl⟩)
  have h3 := scrollToId_noop_iff (freshPage sectionDoc 0) "missing-id" "missing-id"
    (Or.inr ⟨by decide, rfl⟩)
  have h4 := scrollToId_noop_iff (freshPage sectionDoc 0) "#missing-id" "missing-id"
    (Or.inl (by decide))
  have g1 := h1.2.1 1 (by decide) (by decide)
  have g2 := h2.2.1 1 (by decide) (by decide)
  ⟨g1.1, g1.2.1, g1.2.2, g2.2.1, h3.1.mpr (Or.inr (by decide)),
    h4.1.mpr (Or.inr (by decide)), h1.2.2.2.1, h1.2.2.2.2.1, h1.2.2.2.2.2⟩

/-! ## Lemmas on identifiers -/

theorem findFrom_bounds (q : Elem → Bool) (i k : Nat) (l : List Elem)
    (h : findFrom q i l = some k) : i ≤ k ∧ k < i + l.length := by
  induction l generalizing i with
  | nil => simp [findFrom] at h
  | cons e es ih =>
    unfold findFrom at h
    split at h
    · have hk : i = k := Option.some.inj h
      subst hk
      simp
    · obtain ⟨h1, h2⟩ := ih (i + 1) h
      simp only [List.length_cons]
      omega

theorem getElementById_lt (s : String) (doc : Document) (el : Nat)
    (h : getElementById s doc = some el) : el < doc.length := by
  unfold getElementById at h
  split at h
  · exact Option.noConfusion h
  · have := (findFrom_bounds _ 0 el doc h).2
    omega

theorem findFrom_ids (s : String) (i : Nat) (d1 d2 : Document)
    (h : d1.map Elem.id = d2.map Elem.id) :
    findFrom (fun e => e.id == s) i d1 = findFrom (fun e => e.id == s) i d2 := by
  induction d1 generalizing d2 i with
  | nil =>
    cases d2 with
    | nil => rfl
    | cons b bs => simp at h
  | cons a as ih =>
    cases d2 with
    | nil => simp at h
    | cons b bs =>
      simp only [List.map_cons, List.cons.injEq] at h
      unfold findFrom
      simp only [h.1]
      rw [ih (i + 1) bs h.2]

theorem getElementById_ids (s : String) (d1 d2 : Document)
    (h : d1.map Elem.id = d2.map Elem.id) : getElementById s d1 = getElementById s d2 := by
  unfold getElementById
  rw [findFrom_ids s 0 d1 d2 h]

theorem map_modify_keep {β : Type} (g : Elem → β) (f : Elem → Elem) (hf : ∀ e, g (f e) = g e)
    (n : Nat) (l : List Elem) : (l.modify f n).map g = l.map g := by
  induction l generalizing n with
  | nil => cases n <;> rfl
  | cons a as ih =>
    cases n with
    | zero => simp [List.modify, hf]
    | succ m => simp [ih m]

theorem ids_classAdd (c : String) (el : Nat) (doc : Document) :
    (classAdd c el doc).map Elem.id = doc.map Elem.id := by
  unfold classAdd
  apply map_modify_keep
  intro e
  rfl

theorem ids_classRemove (c : String) (el : Nat) (doc : Document) :
    (classRemove c el doc).map Elem.id = doc.map Elem.id := by
  unfold classRemove
  apply map_modify_keep
  intro e
  rfl

theorem ids_setProperty (el : Nat) (name : String) (v : CssText) (doc : Document) :
    (setProperty el name v doc).map Elem.id = doc.map Elem.id := by
  unfold setProperty
  apply map_modify_keep
  intro e
  rfl

theorem ids_compute (el : Nat) (doc : Document) :
    (_computeAndApplyMarqueeDuration el doc).map Elem.id = doc.map Elem.id := by
  unfold _computeAndApplyMarqueeDuration
  split
  · simp only [ids_setProperty]
  · rfl

theorem length_classAdd (c : String) (el : Nat) (doc : Document) :
    (classAdd c el doc).length = doc.length := by
  simp [classAdd]

theorem length_classRemove (c : String) (el : Nat) (doc : Document) :
    (classRemove c el doc).length = doc.length := by
  simp [classRemove]

/-! ## Properties of `playInkWipe` -/

/-- The page after `playInkWipe` found the overlay `el`. -/
theorem playInkWipe_eq (p : Page) (el : Nat) (h : getElementById "inkWipe" p.doc = some el) :
    playInkWipe p =
      (560, { p with doc := classAdd "is-active" el (classAdd "no-scroll" p.body p.doc),
                     timerCount := p.timerCount + 1,
                     timers := p.timers ++ [⟨p.timerCount + 1, p.now + 560, .inkWipeEnd el⟩] }) := by
  unfold playInkWipe
  rw [h]
  rfl

theorem hasClass_inkWipeEnd (c : String) (i el : Nat) (p : Page) :
    hasClass c i (inkWipeEnd el p).doc =
      (hasClass c i p.doc && !(decide (el = i ∧ c = "is-active"))
        && !(decide (p.body = i ∧ c = "no-scroll"))) := by
  unfold inkWipeEnd onDoc
  simp only [hasClass_classRemove]

/-! ## Lemmas on callbacks, microtasks and timers -/

theorem Calm.refl (p : Page) : Calm p p :=
  ⟨rfl, rfl, rfl, fun _ _ _ h => h⟩

theorem Calm.trans {p q r : Page} (h1 : Calm p q) (h2 : Calm q r) : Calm p r :=
  ⟨h2.body.trans h1.body, h2.ids.trans h1.ids, h2.now.trans h1.now,
    fun c i hc h => h2.off c i hc (h1.off c i hc h)⟩

/-- A change that leaves the document, the body and the clock alone is calm. -/
theorem Calm.of_same {p q : Page} (hd : q.doc = p.doc) (hb : q.body = p.body)
    (hn : q.now = p.now) : Calm p q :=
  ⟨hb, by rw [hd], hn, fun _ _ _ h => by rw [hd]; exact h⟩

theorem resolve_cases (w : Nat) (p : Page) :
    resolve w p = p ∨ (∃ ws, resolve w p = { p with waits := ws }) ∨
      ∃ ws el, resolve w p = queueMicrotask (.resume el) { p with waits := ws } := by
  unfold resolve
  cases hw : p.waits[w]? with
  | none => exact Or.inl rfl
  | some s =>
    simp only []
    by_cases hr : s.resolved = true
    · simp [hr]
    · cases ha : s.awaiting with
      | none =>
        refine Or.inr (Or.inl ⟨p.waits.modify (fun x => { x with resolved := true }) w, ?_⟩)
        simp only [hr, if_false, ha]
        rfl
      | some el =>
        refine Or.inr (Or.inr ⟨p.waits.modify (fun x => { x with resolved := true }) w, el, ?_⟩)
        simp only [hr, if_false, ha]
        rfl

theorem calm_resolve (w : Nat) (p : Page) : Calm p (resolve w p) := by
  rcases resolve_cases w p with h | ⟨ws, h⟩ | ⟨ws, el, h⟩ <;> rw [h]
  · exact Calm.refl p
  · exact Calm.of_same rfl rfl rfl
  · exact Calm.of_same rfl rfl rfl

theorem timers_resolve (w : Nat) (p : Page) : (resolve w p).timers = p.timers := by
  rcases resolve_cases w p with h | ⟨ws, h⟩ | ⟨ws, el, h⟩
  · rw [h]
  · rw [h]
  · rw [h]
    rfl

theorem onlyResume_resolve (w : Nat) (p : Page) (h : onlyResume p) :
    onlyResume (resolve w p) := by
  rcases resolve_cases w p with e | ⟨ws, e⟩ | ⟨ws, el, e⟩ <;> rw [e]
  · exact h
  · exact h
  · intro m hm
    have hm2 : m ∈ p.microtasks ++ [Microtask.resume el] := hm
    rcases List.mem_append.mp hm2 with h1 | h1
    · exact h m h1
    · exact ⟨el, List.mem_singleton.mp h1⟩

theorem calm_onDoc_compute (el : Nat) (p : Page) :
    Calm p (onDoc (_computeAndApplyMarqueeDuration el) p) :=
  ⟨rfl, ids_compute el p.doc, rfl, fun c i _ h => by
    show hasClass c i (_computeAndApplyMarqueeDuration el p.doc) = false
    rw [hasClass_compute]; exact h⟩

theorem calm_onDoc_classAdd_ready (el : Nat) (p : Page) :
    Calm p (onDoc (classAdd "is-ready" el) p) :=
  ⟨rfl, ids_classAdd _ el p.doc, rfl, fun c i hc h => by
    show hasClass c i (classAdd "is-ready" el p.doc) = false
    rw [hasClass_classAdd, h]
    simp [hc]⟩

theorem calm_onDoc_classRemove (d : String) (el : Nat) (p : Page) :
    Calm p (onDoc (classRemove d el) p) :=
  ⟨rfl, ids_classRemove _ el p.doc, rfl, fun c i _ h => by
    show hasClass c i (classRemove d el p.doc) = false
    rw [hasClass_classRemove, h]
    rfl⟩

theorem calm_resumeMarquee (el : Nat) (p : Page) : Calm p (resumeMarquee el p) :=
  (calm_onDoc_compute el p).trans (calm_onDoc_classAdd_ready el _)

theorem calm_resizeDebounced (el : Nat) (p : Page) : Calm p (resizeDebounced el p) := by
  unfold resizeDebounced
  simp only []
  split
  · refine (calm_onDoc_compute el p).trans ?_
    unfold _restartMarquee
    exact (calm_onDoc_classRemove "is-ready" el _).trans (calm_onDoc_classAdd_ready el _)
  · exact calm_onDoc_compute el p

theorem calm_inkWipeEnd (el : Nat) (p : Page) : Calm p (inkWipeEnd el p) :=
  (calm_onDoc_classRemove "is-active" el p).trans (calm_onDoc_classRemove "no-scroll" p.body _)

theorem calm_runCallback (cb : Callback) (p : Page) : Calm p (runCallback cb p) := by
  cases cb with
  | waitTimeout w => exact calm_resolve w p
  | resizeDebounce el => exact calm_resizeDebounced el p
  | inkWipeEnd el => exact calm_inkWipeEnd el p

theorem calm_runMicrotask (m : Microtask) (p : Page) : Calm p (runMicrotask m p) := by
  cases m with
  | checkEarly w timer =>
    show Calm p (checkEarly w timer p)
    unfold checkEarly
    split
    · exact (Calm.of_same (p := p) (q := clearTimeout timer p) rfl rfl rfl).trans
        (calm_resolve w _)
    · exact Calm.refl p
  | resume el => exact calm_resumeMarquee el p

theorem calm_drain (n : Nat) (p : Page) : Calm p (drain n p) := by
  induction n generalizing p with
  | zero => exact Calm.refl p
  | succ k ih =>
    unfold drain
    cases hm : p.microtasks with
    | nil => exact Calm.refl p
    | cons m ms =>
      simp only []
      exact ((Calm.of_same (p := p) (q := { p with microtasks := ms }) rfl rfl rfl).trans
        (calm_runMicrotask m _)).trans (ih _)

theorem timers_runCallback (cb : Callback) (p : Page) : (runCallback cb p).timers = p.timers := by
  cases cb with
  | waitTimeout w => exact timers_resolve w p
  | resizeDebounce el =>
    show (resizeDebounced el p).timers = p.timers
    unfold resizeDebounced
    simp only []
    split <;> rfl
  | inkWipeEnd el => rfl

theorem onlyResume_runCallback (cb : Callback) (p : Page) (h : onlyResume p) :
    onlyResume (runCallback cb p) := by
  cases cb with
  | waitTimeout w => exact onlyResume_resolve w p h
  | resizeDebounce el =>
    show onlyResume (resizeDebounced el p)
    unfold resizeDebounced
    simp only []
    split <;> exact h
  | inkWipeEnd el => exact h

theorem timers_drain (n : Nat) (p : Page) (h : onlyResume p) :
    (drain n p).timers = p.timers ∧ onlyResume (drain n p) := by
  induction n generalizing p with
  | zero => exact ⟨rfl, h⟩
  | succ k ih =>
    unfold drain
    cases hm : p.microtasks with
    | nil => exact ⟨rfl, h⟩
    | cons m ms =>
      simp only []
      obtain ⟨el, hel⟩ := h m (by rw [hm]; exact List.mem_cons_self _ _)
      subst hel
      have hq : onlyResume (runMicrotask (.resume el) { p with microtasks := ms }) := by
        intro m hmem
        exact h m (by rw [hm]; exact List.mem_cons_of_mem _ hmem)
      obtain ⟨h1, h2⟩ := ih _ hq
      exact ⟨h1, h2⟩

theorem calm_task (f : Page → Page) (p : Page) (h : Calm p (f p)) : Calm p (task f p) :=
  h.trans (calm_drain _ _)

theorem timers_task (f : Page → Page) (p : Page) (h : onlyResume (f p)) :
    (task f p).timers = (f p).timers ∧ onlyResume (task f p) :=
  timers_drain _ _ h

/-- What the firing of a timer leaves in place. -/
theorem fireTimer_frame (x : Timer) (p : Page) :
    (fireTimer x p).body = p.body ∧
    (fireTimer x p).doc.map Elem.id = p.doc.map Elem.id ∧
    (fireTimer x p).now = max p.now x.due ∧
    (∀ c i, c ≠ "is-ready" → hasClass c i p.doc = false →
      hasClass c i (fireTimer x p).doc = false) := by
  have h1 : Calm _ (fireTimer x p) := calm_task (runCallback x.cb) _ (calm_runCallback _ _)
  exact ⟨h1.body, h1.ids, h1.now, h1.off⟩

theorem fireTimer_timers (x : Timer) (p : Page) (h : onlyResume p) :
    (fireTimer x p).timers = p.timers.erase x ∧ onlyResume (fireTimer x p) := by
  have h1 := timers_task (runCallback x.cb) _
    (onlyResume_runCallback x.cb { p with timers := p.timers.erase x, now := max p.now x.due } h)
  refine ⟨?_, h1.2⟩
  have h2 := h1.1
  rw [timers_runCallback] at h2
  exact h2

theorem fireTimer_inkWipeEnd (x : Timer) (el : Nat) (p : Page) (hx : x.cb = .inkWipeEnd el) :
    hasClass "is-active" el (fireTimer x p).doc = false ∧
    hasClass "no-scroll" p.body (fireTimer x p).doc = false := by
  have hc : Calm (runCallback x.cb { p with timers := p.timers.erase x, now := max p.now x.due })
      (fireTimer x p) := calm_drain _ _
  rw [hx] at hc
  constructor
  · apply hc.off _ _ (by decide)
    show hasClass "is-active" el (inkWipeEnd el _).doc = false
    rw [hasClass_inkWipeEnd]
    simp
  · apply hc.off _ _ (by decide)
    show hasClass "no-scroll" p.body (inkWipeEnd el _).doc = false
    rw [hasClass_inkWipeEnd]
    simp

theorem nextDue_some (t : Nat) (l : List Timer) (x : Timer) (h : nextDue t l = some x) :
    x ∈ l ∧ x.due ≤ t := by
  induction l generalizing x with
  | nil => simp [nextDue] at h
  | cons a as ih =>
    unfold nextDue at h
    cases hn : nextDue t as with
    | none =>
      rw [hn] at h
      simp only [] at h
      split at h
      · have e : a = x := Option.some.inj h
        subst e
        exact ⟨List.mem_cons_self _ _, by assumption⟩
      · exact Option.noConfusion h
    | some y =>
      rw [hn] at h
      simp only [] at h
      obtain ⟨hy1, hy2⟩ := ih y hn
      split at h
      · have e : a = x := Option.some.inj h
        subst e
        exact ⟨List.mem_cons_self _ _, by omega⟩
      · have e : y = x := Option.some.inj h
        subst e
        exact ⟨List.mem_cons_of_mem _ hy1, hy2⟩

theorem nextDue_of_mem (t : Nat) (l : List Timer) (T : Timer) (hT : T ∈ l) (hd : T.due ≤ t) :
    ∃ x, nextDue t l = some x := by
  induction l with
  | nil => simp at hT
  | cons a as ih =>
    unfold nextDue
    cases hn : nextDue t as with
    | none =>
      simp only []
      rcases List.mem_cons.mp hT with e | e
      · subst e
        simp [hd]
      · obtain ⟨x, hx⟩ := ih e
        rw [hn] at hx
        exact Option.noConfusion hx
    | some y =>
      simp only []
      split
      · exact ⟨_, rfl⟩
      · exact ⟨_, rfl⟩

/-- What the passing of time leaves in place: the body, the ids, the classes
that are off (other than `is-ready`), and the timers due later. -/
theorem advance_frame (fuel t : Nat) (p : Page) (h : onlyResume p) :
    (advance fuel t p).body = p.body ∧
    (advance fuel t p).doc.map Elem.id = p.doc.map Elem.id ∧
    (advance fuel t p).now = max p.now t ∧
    (∀ c i, c ≠ "is-ready" → hasClass c i p.doc = false →
      hasClass c i (advance fuel t p).doc = false) ∧
    onlyResume (advance fuel t p) ∧
    (∀ T ∈ p.timers, t < T.due → T ∈ (advance fuel t p).timers) := by
  induction fuel generalizing p with
  | zero => exact ⟨rfl, rfl, rfl, fun _ _ _ hc => hc, h, fun _ hT _ => hT⟩
  | succ k ih =>
    unfold advance
    cases hn : nextDue t p.timers with
    | none => exact ⟨rfl, rfl, rfl, fun _ _ _ hc => hc, h, fun _ hT _ => hT⟩
    | some x =>
      simp only []
      obtain ⟨hx1, hx2⟩ := nextDue_some t p.timers x hn
      obtain ⟨f1, f2, f3, f4⟩ := fireTimer_frame x p
      obtain ⟨g1, g2⟩ := fireTimer_timers x p h
      obtain ⟨i1, i2, i3, i4, i5, i6⟩ := ih (fireTimer x p) g2
      refine ⟨i1.trans f1, i2.trans f2, ?_, fun c i hc hoff => i4 c i hc (f4 c i hc hoff), i5, ?_⟩
      · rw [i3, f3, max_assoc, max_eq_right hx2]
      · intro T hT hlate
        apply i6 T _ hlate
        rw [g1]
        have hne : T ≠ x := by
          intro e
          rw [e] at hlate
          omega
        exact (List.mem_erase_of_ne hne).mpr hT

/-- A pending end-of-wipe timer that is due by `t` has fired when time reached `t`. -/
theorem advance_fires (fuel t : Nat) (p : Page) (el : Nat) (T : Timer) (h : onlyResume p)
    (hT : T ∈ p.timers) (hd : T.due ≤ t) (hcb : T.cb = .inkWipeEnd el)
    (hf : p.timers.length ≤ fuel) :
    hasClass "is-active" el (advance fuel t p).doc = false ∧
    hasClass "no-scroll" p.body (advance fuel t p).doc = false := by
  induction fuel generalizing p with
  | zero =>
    have : p.timers = [] := List.length_eq_zero.mp (Nat.le_zero.mp hf)
    rw [this] at hT
    simp at hT
  | succ k ih =>
    unfold advance
    obtain ⟨x, hn⟩ := nextDue_of_mem t p.timers T hT hd
    rw [hn]
    simp only []
    obtain ⟨hx1, hx2⟩ := nextDue_some t p.timers x hn
    obtain ⟨f1, f2, f3, f4⟩ := fireTimer_frame x p
    obtain ⟨g1, g2⟩ := fireTimer_timers x p h
    by_cases e : x = T
    · subst e
      obtain ⟨o1, o2⟩ := fireTimer_inkWipeEnd x el p hcb
      obtain ⟨i1, i2, i3, i4, i5, i6⟩ := advance_frame k t (fireTimer x p) g2
      exact ⟨i4 _ _ (by decide) o1, i4 _ _ (by decide) o2⟩
    · have hmem : T ∈ (fireTimer x p).timers := by
        rw [g1]
        exact (List.mem_erase_of_ne (fun e2 => e e2.symm)).mpr hT
      have hlen : (fireTimer x p).timers.length ≤ k := by
        rw [g1, List.length_erase_of_mem hx1]
        omega
      have := ih (fireTimer x p) g2 hmem hlen
      rw [f1] at this
      exact this

/-! ## The event loop runs to completion -/

theorem microtasks_resolve (w : Nat) (p : Page) :
    (resolve w p).microtasks = p.microtasks ∨
      ∃ el, (resolve w p).microtasks = p.microtasks ++ [.resume el] := by
  rcases resolve_cases w p with h | ⟨ws, h⟩ | ⟨ws, el, h⟩
  · rw [h]; exact Or.inl rfl
  · rw [h]; exact Or.inl rfl
  · rw [h]; exact Or.inr ⟨el, rfl⟩

theorem microWeight_runMicrotask (m : Microtask) (p : Page) :
    ((runMicrotask m p).microtasks.map microWeight).sum + 1
      ≤ microWeight m + (p.microtasks.map microWeight).sum := by
  cases m with
  | checkEarly w timer =>
    show ((checkEarly w timer p).microtasks.map microWeight).sum + 1 ≤ 2 + _
    unfold checkEarly
    split
    · rcases microtasks_resolve w (clearTimeout timer p) with h | ⟨el, h⟩
      · rw [h]
        show (p.microtasks.map microWeight).sum + 1 ≤ 2 + _
        omega
      · rw [h]
        show ((p.microtasks ++ [Microtask.resume el]).map microWeight).sum + 1 ≤ 2 + _
        simp [microWeight]
        omega
    · omega
  | resume el =>
    show (p.microtasks.map microWeight).sum + 1 ≤ 1 + _
    omega

theorem drain_empty (n : Nat) (p : Page) (h : (p.microtasks.map microWeight).sum ≤ n) :
    (drain n p).microtasks = [] := by
  induction n generalizing p with
  | zero =>
    cases hm : p.microtasks with
    | nil => exact hm
    | cons m ms =>
      rw [hm] at h
      cases m <;> simp [microWeight] at h
  | succ k ih =>
    unfold drain
    cases hm : p.microtasks with
    | nil => exact hm
    | cons m ms =>
      simp only []
      apply ih
      have h2 := microWeight_runMicrotask m { p with microtasks := ms }
      rw [hm] at h
      simp only [List.map_cons, List.sum_cons] at h
      have h3 : ({ p with microtasks := ms } : Page).microtasks = ms := rfl
      rw [h3] at h2
      omega

/-- The fuel of `drainMicrotasks` suffices: after a task no microtask is left. -/
theorem drainMicrotasks_empty (p : Page) : (drainMicrotasks p).microtasks = [] :=
  drain_empty _ p (le_refl _)

theorem nextDue_none (t : Nat) (l : List Timer) (h : nextDue t l = none) :
    ∀ T ∈ l, t < T.due := by
  intro T hT
  by_contra hlt
  obtain ⟨x, hx⟩ := nextDue_of_mem t l T hT (Nat.le_of_not_lt hlt)
  rw [h] at hx
  exact Option.noConfusion hx

theorem advance_done (fuel t : Nat) (p : Page) (h : onlyResume p)
    (hf : p.timers.length ≤ fuel) : ∀ T ∈ (advance fuel t p).timers, t < T.due := by
  induction fuel generalizing p with
  | zero =>
    have : p.timers = [] := List.length_eq_zero.mp (Nat.le_zero.mp hf)
    intro T hT
    have hT2 : T ∈ p.timers := hT
    rw [this] at hT2
    simp at hT2
  | succ k ih =>
    unfold advance
    cases hn : nextDue t p.timers with
    | none => exact nextDue_none t p.timers hn
    | some x =>
      simp only []
      obtain ⟨hx1, _⟩ := nextDue_some t p.timers x hn
      obtain ⟨g1, g2⟩ := fireTimer_timers x p h
      apply ih (fireTimer x p) g2
      rw [g1, List.length_erase_of_mem hx1]
      omega

/-- The fuel of `advanceTo` suffices: when time has reached `t`, every timer still
pending is due later than `t`. -/
theorem advanceTo_done (t : Nat) (p : Page) (h : onlyResume p) :
    ∀ T ∈ (advanceTo t p).timers, t < T.due :=
  advance_done _ t p h (le_refl _)

/-- The classes set by `playInkWipe` when it found the overlay `el`. -/
theorem playInkWipe_sets (p : Page) (el : Nat)
    (hel : getElementById "inkWipe" p.doc = some el) (hb : p.body < p.doc.length) :
    hasClass "is-active" el (playInkWipe p).2.doc = true ∧
    hasClass "no-scroll" p.body (playInkWipe p).2.doc = true := by
  have hlt := getElementById_lt _ _ _ hel
  rw [playInkWipe_eq p el hel]
  constructor
  · show hasClass "is-active" el (classAdd "is-active" el (classAdd "no-scroll" p.body p.doc)) = true
    rw [hasClass_classAdd]
    simp [length_classAdd, hlt]
  · show hasClass "no-scroll" p.body
      (classAdd "is-active" el (classAdd "no-scroll" p.body p.doc)) = true
    rw [hasClass_classAdd, hasClass_classAdd]
    simp [hb]

/-- C7: on a document without the overlay node `inkWipe`, `playInkWipe` returns 0
and leaves the whole page as it was: no class is added and no timer is set. -/
theorem playInkWipe_absent (p : Page) (h : getElementById "inkWipe" p.doc = none) :
    playInkWipe p = (0, p) := by
  unfold playInkWipe
  rw [h]

/-- Witness for C7: a page whose only section is `section1`. -/
theorem playInkWipe_absent_witness :
    playInkWipe (freshPage sectionDoc 0) = (0, freshPage sectionDoc 0) :=
  playInkWipe_absent (freshPage sectionDoc 0) (by decide)

/-- C6: on a document with the overlay node `inkWipe`, `playInkWipe` returns 560;
right after the call the overlay has `is-active` and the body has `no-scroll`;
exactly one timer was added, due 560 ms later; whenever that timer fires, the
overlay loses `is-active` and the body loses `no-scroll`, and so they have once
560 ms have passed. -/
theorem playInkWipe_present (p : Page) (el : Nat)
    (hel : getElementById "inkWipe" p.doc = some el) (hb : p.body < p.doc.length) :
    (playInkWipe p).1 = 560 ∧
    hasClass "is-active" el (playInkWipe p).2.doc = true ∧
    hasClass "no-scroll" p.body (playInkWipe p).2.doc = true ∧
    (playInkWipe p).2.timers = p.timers ++ [⟨p.timerCount + 1, p.now + 560, .inkWipeEnd el⟩] ∧
    (∀ q : Page, q.body = p.body →
      hasClass "is-active" el
        (fireTimer ⟨p.timerCount + 1, p.now + 560, .inkWipeEnd el⟩ q).doc = false ∧
      hasClass "no-scroll" p.body
        (fireTimer ⟨p.timerCount + 1, p.now + 560, .inkWipeEnd el⟩ q).doc = false) ∧
    (p.microtasks = [] →
      hasClass "is-active" el (advanceTo (p.now + 560) (playInkWipe p).2).doc = false ∧
      hasClass "no-scroll" p.body (advanceTo (p.now + 560) (playInkWipe p).2).doc = false) := by
  obtain ⟨s1, s2⟩ := playInkWipe_sets p el hel hb
  rw [playInkWipe_eq p el hel] at s1 s2 ⊢
  refine ⟨rfl, s1, s2, rfl, ?_, ?_⟩
  · intro q hq
    have := fireTimer_inkWipeEnd ⟨p.timerCount + 1, p.now + 560, .inkWipeEnd el⟩ el q rfl
    rw [hq] at this
    exact this
  · intro hm
    have hr : onlyResume { p with
        doc := classAdd "is-active" el (classAdd "no-scroll" p.body p.doc),
        timerCount := p.timerCount + 1,
        timers := p.timers ++ [⟨p.timerCount + 1, p.now + 560, .inkWipeEnd el⟩] } := by
      intro m hmem
      have hmem2 : m ∈ p.microtasks := hmem
      rw [hm] at hmem2
      simp at hmem2
    exact advance_fires _ (p.now + 560) _ el ⟨p.timerCount + 1, p.now + 560, .inkWipeEnd el⟩ hr
      (List.mem_append.mpr (Or.inr (List.mem_singleton.mpr rfl))) (le_refl _) rfl (le_refl _)

/-- Witness for C6: a page with the overlay, at rest. -/
theorem playInkWipe_present_witness :
    getElementById "inkWipe" (freshPage wipeDoc 0).doc = some 1 ∧
    (playInkWipe (freshPage wipeDoc 0)).1 = 560 ∧
    hasClass "is-active" 1 (playInkWipe (freshPage wipeDoc 0)).2.doc = true ∧
    hasClass "no-scroll" 0 (playInkWipe (freshPage wipeDoc 0)).2.doc = true ∧
    (playInkWipe (freshPage wipeDoc 0)).2.timers = [⟨1, 560, .inkWipeEnd 1⟩] ∧
    hasClass "is-active" 1 (advanceTo 560 (playInkWipe (freshPage wipeDoc 0)).2).doc = false ∧
    hasClass "no-scroll" 0 (advanceTo 560 (playInkWipe (freshPage wipeDoc 0)).2).doc = false :=
  have h := playInkWipe_present (freshPage wipeDoc 0) 1 (by decide) (by decide)
  ⟨by decide, h.1, h.2.1, h.2.2.1, h.2.2.2.1, (h.2.2.2.2.2 rfl).1, (h.2.2.2.2.2 rfl).2⟩

/-- C10: `playInkWipe` has no overlap guard. On a page with the overlay, at rest at
time `t1 = p.now`, let it be called, let time pass to `t2` with `t1 < t2 < t1 + 560`,
and let it be called again. The second call returns 560 and turns the overlay on,
and its own timer is still pending at every `t` with `t1 + 560 ≤ t < t2 + 560`; yet
the first call's timer has fired by then, so at time `t` the overlay is not active
and the body is not `no-scroll`. -/
theorem playInkWipe_overlap (p : Page) (el t2 t : Nat)
    (hel : getElementById "inkWipe" p.doc = some el) (hb : p.body < p.doc.length)
    (hm : p.microtasks = [])
    (h1 : p.now < t2) (h2 : t2 < p.now + 560) (h3 : p.now + 560 ≤ t) (h4 : t < t2 + 560) :
    (playInkWipe (advanceTo t2 (playInkWipe p).2)).1 = 560 ∧
    hasClass "is-active" el (playInkWipe (advanceTo t2 (playInkWipe p).2)).2.doc = true ∧
    hasClass "no-scroll" p.body (playInkWipe (advanceTo t2 (playInkWipe p).2)).2.doc = true ∧
    (advanceTo t (playInkWipe (advanceTo t2 (playInkWipe p).2)).2).now = t ∧
    (∃ id, (⟨id, t2 + 560, .inkWipeEnd el⟩ : Timer) ∈
      (advanceTo t (playInkWipe (advanceTo t2 (playInkWipe p).2)).2).timers) ∧
    hasClass "is-active" el
      (advanceTo t (playInkWipe (advanceTo t2 (playInkWipe p).2)).2).doc = false ∧
    hasClass "no-scroll" p.body
      (advanceTo t (playInkWipe (advanceTo t2 (playInkWipe p).2)).2).doc = false := by
  -- the page after the first call
  have e1 := playInkWipe_eq p el hel
  generalize hp1 : (playInkWipe p).2 = p1
  have hp1doc : p1.doc.map Elem.id = p.doc.map Elem.id := by
    rw [← hp1, e1]
    show (classAdd "is-active" el (classAdd "no-scroll" p.body p.doc)).map Elem.id = _
    rw [ids_classAdd, ids_classAdd]
  have hp1body : p1.body = p.body := by rw [← hp1, e1]
  have hp1now : p1.now = p.now := by rw [← hp1, e1]
  have hp1only : onlyResume p1 := by
    intro m hmem
    have hmem2 : m ∈ p.microtasks := by
      rw [← hp1, e1] at hmem
      exact hmem
    rw [hm] at hmem2
    simp at hmem2
  have hT1 : (⟨p.timerCount + 1, p.now + 560, .inkWipeEnd el⟩ : Timer) ∈ p1.timers := by
    rw [← hp1, e1]
    exact List.mem_append.mpr (Or.inr (List.mem_singleton.mpr rfl))
  -- time passes to t2
  obtain ⟨a1, a2, a3, _, a5, a6⟩ := advance_frame p1.timers.length t2 p1 hp1only
  have hT1' := a6 _ hT1 (by show t2 < p.now + 560; exact h2)
  generalize hp2 : advanceTo t2 p1 = p2
  have hp2' : advance p1.timers.length t2 p1 = p2 := hp2
  rw [hp2'] at a1 a2 a3 a5 hT1'
  have hp2now : p2.now = t2 := by
    rw [a3, hp1now]
    exact max_eq_right (Nat.le_of_lt h1)
  have hel2 : getElementById "inkWipe" p2.doc = some el := by
    rw [getElementById_ids _ p2.doc p.doc (a2.trans hp1doc)]
    exact hel
  have hlen2 : p2.doc.length = p.doc.length := by
    have := congrArg List.length (a2.trans hp1doc)
    simpa using this
  -- the second call
  have e2 := playInkWipe_eq p2 el hel2
  have hp2body : p2.body = p.body := a1.trans hp1body
  have hlt2 : el < p2.doc.length := getElementById_lt _ _ _ hel2
  have c2 := playInkWipe_sets p2 el hel2 (by rw [hp2body, hlen2]; exact hb)
  generalize hp3 : (playInkWipe p2).2 = p3
  have hp3only : onlyResume p3 := by
    intro m hmem
    rw [← hp3, e2] at hmem
    exact a5 m hmem
  have hp3body : p3.body = p.body := by
    rw [← hp3, e2]
    exact hp2body
  have hp3T1 : (⟨p.timerCount + 1, p.now + 560, .inkWipeEnd el⟩ : Timer) ∈ p3.timers := by
    rw [← hp3, e2]
    exact List.mem_append.mpr (Or.inl hT1')
  have hp3T2 : (⟨p2.timerCount + 1, t2 + 560, .inkWipeEnd el⟩ : Timer) ∈ p3.timers := by
    rw [← hp3, e2, ← hp2now]
    exact List.mem_append.mpr (Or.inr (List.mem_singleton.mpr rfl))
  have hp3now : p3.now = t2 := by
    rw [← hp3, e2]
    exact hp2now
  -- time passes to t
  obtain ⟨b1, b2, b3, _, b5, b6⟩ := advance_frame p3.timers.length t p3 hp3only
  obtain ⟨f1, f2⟩ := advance_fires p3.timers.length t p3 el _ hp3only hp3T1 h3 rfl (le_refl _)
  rw [hp3body] at f2
  rw [hp3] at c2
  rw [hp2body] at c2
  refine ⟨?_, c2.1, c2.2, ?_, ⟨_, b6 _ hp3T2 h4⟩, f1, f2⟩
  · rw [e2]
  · show (advance p3.timers.length t p3).now = t
    rw [b3, hp3now]
    exact max_eq_right (by omega)

/-- Witness for C10: calls at times 0 and 100, observed at time 600. -/
theorem playInkWipe_overlap_witness :
    (playInkWipe (advanceTo 100 (playInkWipe (freshPage wipeDoc 0)).2)).1 = 560 ∧
    hasClass "is-active" 1
      (playInkWipe (advanceTo 100 (playInkWipe (freshPage wipeDoc 0)).2)).2.doc = true ∧
    hasClass "is-active" 1
      (advanceTo 600 (playInkWipe (advanceTo 100 (playInkWipe (freshPage wipeDoc 0)).2)).2).doc
        = false ∧
    hasClass "no-scroll" 0
      (advanceTo 600 (playInkWipe (advanceTo 100 (playInkWipe (freshPage wipeDoc 0)).2)).2).doc
        = false :=
  have h := playInkWipe_overlap (freshPage wipeDoc 0) 1 100 600 (by decide) (by decide) rfl
    (by decide) (by decide) (by decide) (by decide)
  ⟨h.1, h.2.1, h.2.2.2.2.2.1, h.2.2.2.2.2.2⟩

/-! ## Properties of the reveal observer -/

theorem observedBy_unobserve (k t : Nat) (p : Page) :
    observedBy k (unobserve k t p) = (observedBy k p).filter (fun x => x != t) := by
  unfold observedBy unobserve
  simp only [List.getElem?_modify_eq]
  cases p.intersectionObservers[k]? <;> simp

theorem revealEntry_hit (k : Nat) (q : Page) (e : Entry) (hi : e.isIntersecting = true)
    (hlt : e.target < q.doc.length) :
    hasClass "is-in" e.target (revealEntry k q e).doc = true ∧
    e.target ∉ observedBy k (revealEntry k q e) := by
  unfold revealEntry
  rw [if_pos hi]
  constructor
  · show hasClass "is-in" e.target (classAdd "is-in" e.target q.doc) = true
    rw [hasClass_classAdd]
    simp [hlt]
  · rw [observedBy_unobserve]
    simp

theorem revealEntry_keeps (k : Nat) (q : Page) (e : Entry) (c : String) (i : Nat) :
    (hasClass c i q.doc = true → hasClass c i (revealEntry k q e).doc = true) ∧
    (i ∉ observedBy k q → i ∉ observedBy k (revealEntry k q e)) ∧
    (revealEntry k q e).doc.length = q.doc.length := by
  unfold revealEntry
  split
  · refine ⟨?_, ?_, ?_⟩
    · intro h
      show hasClass c i (classAdd "is-in" e.target q.doc) = true
      rw [hasClass_classAdd, h]
      rfl
    · intro h
      rw [observedBy_unobserve]
      intro hmem
      exact h (List.mem_of_mem_filter hmem)
    · show (classAdd "is-in" e.target q.doc).length = _
      exact length_classAdd _ _ _
  · exact ⟨fun h => h, fun h => h, rfl⟩

theorem revealCallback_keeps (k : Nat) (es : List Entry) (q : Page) (c : String) (i : Nat) :
    (hasClass c i q.doc = true → hasClass c i (revealCallback k es q).doc = true) ∧
    (i ∉ observedBy k q → i ∉ observedBy k (revealCallback k es q)) ∧
    (revealCallback k es q).doc.length = q.doc.length := by
  induction es generalizing q with
  | nil => exact ⟨fun h => h, fun h => h, rfl⟩
  | cons e es ih =>
    obtain ⟨a1, a2, a3⟩ := revealEntry_keeps k q e c i
    obtain ⟨b1, b2, b3⟩ := ih (revealEntry k q e)
    exact ⟨fun h => b1 (a1 h), fun h => b2 (a2 h), b3.trans a3⟩

theorem deliver_keeps (k : Nat) (bs : List (List Entry)) (q : Page) (c : String) (i : Nat) :
    (hasClass c i q.doc = true → hasClass c i (deliver k bs q).doc = true) ∧
    (i ∉ observedBy k q → i ∉ observedBy k (deliver k bs q)) ∧
    (deliver k bs q).doc.length = q.doc.length := by
  induction bs generalizing q with
  | nil => exact ⟨fun h => h, fun h => h, rfl⟩
  | cons b bs ih =>
    obtain ⟨a1, a2, a3⟩ := revealCallback_keeps k b q c i
    obtain ⟨b1, b2, b3⟩ := ih (revealCallback k b q)
    exact ⟨fun h => b1 (a1 h), fun h => b2 (a2 h), b3.trans a3⟩

theorem revealCallback_hit (k : Nat) (es : List Entry) (q : Page) (e : Entry) (he : e ∈ es)
    (hi : e.isIntersecting = true) (hlt : e.target < q.doc.length) :
    hasClass "is-in" e.target (revealCallback k es q).doc = true ∧
    e.target ∉ observedBy k (revealCallback k es q) := by
  induction es generalizing q with
  | nil => simp at he
  | cons a as ih =>
    rcases List.mem_cons.mp he with h | h
    · subst h
      obtain ⟨h1, h2⟩ := revealEntry_hit k q e hi hlt
      obtain ⟨b1, b2, _⟩ := revealCallback_keeps k as (revealEntry k q e) "is-in" e.target
      exact ⟨b1 h1, b2 h2⟩
    · exact ih (revealEntry k q a) h (by rw [(revealEntry_keeps k q a "" 0).2.2]; exact hlt)

theorem deliver_append (k : Nat) (xs ys : List (List Entry)) (q : Page) :
    deliver k (xs ++ ys) q = deliver k ys (deliver k xs q) := by
  unfold deliver
  rw [List.foldl_append]

/-- C9: reveal is one-shot and permanent. Let the intersection callback of an
observer receive any batches of entries, one of which holds an intersecting entry
for an element; then after that batch and after any further batches the element has
`is-in` and is not observed. More generally no delivery removes `is-in` from any
element or puts an element back under observation, and an entry that is not
intersecting changes nothing. -/
theorem reveal_one_shot (k : Nat) (p : Page) (pre post : List (List Entry))
    (batch : List Entry) (e : Entry) (he : e ∈ batch) (hi : e.isIntersecting = true)
    (hlt : e.target < p.doc.length) :
    hasClass "is-in" e.target (deliver k (pre ++ [batch] ++ post) p).doc = true ∧
    e.target ∉ observedBy k (deliver k (pre ++ [batch] ++ post) p) ∧
    (∀ (q : Page) (bs : List (List Entry)) (i : Nat),
      (hasClass "is-in" i q.doc = true → hasClass "is-in" i (deliver k bs q).doc = true) ∧
      (i ∉ observedBy k q → i ∉ observedBy k (deliver k bs q))) ∧
    (∀ (q : Page) (x : Entry), x.isIntersecting = false → revealEntry k q x = q) := by
  have hlen : (deliver k pre p).doc.length = p.doc.length := (deliver_keeps k pre p "" 0).2.2
  obtain ⟨h1, h2⟩ := revealCallback_hit k batch (deliver k pre p) e he hi (by rw [hlen]; exact hlt)
  obtain ⟨k1, k2, _⟩ := deliver_keeps k post (revealCallback k batch (deliver k pre p))
    "is-in" e.target
  have hd : deliver k (pre ++ [batch] ++ post) p
      = deliver k post (revealCallback k batch (deliver k pre p)) := by
    rw [deliver_append, deliver_append]
    rfl
  rw [hd]
  refine ⟨k1 h1, k2 h2, ?_, ?_⟩
  · intro q bs i
    obtain ⟨m1, m2, _⟩ := deliver_keeps k bs q "is-in" i
    exact ⟨m1, m2⟩
  · intro q x hx
    unfold revealEntry
    simp [hx]

/-! ## Properties of `initStackMarquees` -/

theorem marqueeHas_iff (el : Nat) (p : Page) :
    marqueeHas el p = true ↔ el ∈ p._marqueeState.map Prod.fst := by
  unfold marqueeHas
  simp [List.any_eq_true]

/-- What `initMarquee` does to a marquee that is not in the side-table yet. -/
theorem initMarquee_new (p : Page) (el : Nat) (h : ¬ marqueeHas el p = true) :
    (initMarquee p el)._marqueeState = p._marqueeState ++ [(el, p.states.length)] ∧
    (initMarquee p el).doc = p.doc ∧
    (initMarquee p el).rafQueue = p.rafQueue ++ [el] ∧
    (initMarquee p el).timers = p.timers ∧
    ((initMarquee p el).resizeObservers = p.resizeObservers ∨
      ∃ s seq, (initMarquee p el).resizeObservers = p.resizeObservers ++ [⟨el, s, [seq]⟩]) := by
  unfold initMarquee
  rw [if_neg h]
  simp only []
  split
  · split
    · exact ⟨rfl, rfl, rfl, rfl, Or.inr ⟨_, _, rfl⟩⟩
    · exact ⟨rfl, rfl, rfl, rfl, Or.inl rfl⟩
  · exact ⟨rfl, rfl, rfl, rfl, Or.inl rfl⟩

theorem initMarquee_old (p : Page) (el : Nat) (h : marqueeHas el p = true) :
    initMarquee p el = p := by
  unfold initMarquee
  rw [if_pos h]

theorem initMarquee_doc (p : Page) (el : Nat) : (initMarquee p el).doc = p.doc := by
  by_cases h : marqueeHas el p = true
  · rw [initMarquee_old p el h]
  · exact (initMarquee_new p el h).2.1

theorem initMarquee_has (p : Page) (el x : Nat) :
    marqueeHas el (initMarquee p el) = true ∧
    (marqueeHas x p = true → marqueeHas x (initMarquee p el) = true) := by
  by_cases h : marqueeHas el p = true
  · rw [initMarquee_old p el h]
    exact ⟨h, fun hx => hx⟩
  · have e := (initMarquee_new p el h).1
    constructor
    · rw [marqueeHas_iff, e]
      simp
    · intro hx
      rw [marqueeHas_iff] at hx ⊢
      rw [e]
      simp only [List.map_append, List.mem_append]
      exact Or.inl hx

theorem foldl_initMarquee_doc (L : List Nat) (p : Page) :
    (L.foldl initMarquee p).doc = p.doc := by
  induction L generalizing p with
  | nil => rfl
  | cons a as ih =>
    simp only [List.foldl_cons]
    rw [ih, initMarquee_doc]

theorem foldl_initMarquee_has (L : List Nat) (p : Page) (x : Nat) :
    (marqueeHas x p = true → marqueeHas x (L.foldl initMarquee p) = true) ∧
    (x ∈ L → marqueeHas x (L.foldl initMarquee p) = true) := by
  induction L generalizing p with
  | nil => exact ⟨fun h => h, fun h => by simp at h⟩
  | cons a as ih =>
    simp only [List.foldl_cons]
    obtain ⟨i1, i2⟩ := ih (initMarquee p a)
    constructor
    · intro h
      exact i1 ((initMarquee_has p a x).2 h)
    · intro h
      rcases List.mem_cons.mp h with e | e
      · subst e
        exact i1 (initMarquee_has p x x).1
      · exact i2 e

theorem foldl_initMarquee_fixed (L : List Nat) (p : Page)
    (h : ∀ x ∈ L, marqueeHas x p = true) : L.foldl initMarquee p = p := by
  induction L with
  | nil => rfl
  | cons a as ih =>
    simp only [List.foldl_cons]
    rw [initMarquee_old p a (h a (List.mem_cons_self _ _))]
    exact ih (fun x hx => h x (List.mem_cons_of_mem _ hx))

theorem initStackMarquees_doc (p : Page) : (initStackMarquees p).doc = p.doc := by
  unfold initStackMarquees
  simp only []
  split
  · rfl
  · exact foldl_initMarquee_doc _ _

theorem initStackMarquees_tracked (p : Page)
    (h : ∀ el ∈ querySelectorAll "stack-marquee" p.doc, marqueeHas el p = true) :
    initStackMarquees p = p := by
  unfold initStackMarquees
  simp only []
  split
  · rfl
  · exact foldl_initMarquee_fixed _ _ h

theorem initStackMarquees_all (p : Page) :
    ∀ el ∈ querySelectorAll "stack-marquee" p.doc, marqueeHas el (initStackMarquees p) = true := by
  intro el hel
  unfold initStackMarquees
  simp only []
  split
  · rename_i h0
    rw [List.length_eq_zero.mp h0] at hel
    simp at hel
  · exact (foldl_initMarquee_has _ p el).2 hel

/-- The side-table has one entry per element, a marquee owns at most one resize
observer, and every observer belongs to an element of the side-table. -/
theorem initMarquee_unique (p : Page) (el : Nat)
    (h1 : (p._marqueeState.map Prod.fst).Nodup)
    (h2 : (p.resizeObservers.map ResizeObs.marqueeEl).Nodup)
    (h3 : ∀ o ∈ p.resizeObservers, marqueeHas o.marqueeEl p = true) :
    ((initMarquee p el)._marqueeState.map Prod.fst).Nodup ∧
    ((initMarquee p el).resizeObservers.map ResizeObs.marqueeEl).Nodup ∧
    (∀ o ∈ (initMarquee p el).resizeObservers, marqueeHas o.marqueeEl (initMarquee p el) = true) := by
  by_cases h : marqueeHas el p = true
  · rw [initMarquee_old p el h]
    exact ⟨h1, h2, h3⟩
  · obtain ⟨e1, _, _, _, e5⟩ := initMarquee_new p el h
    have hnot : el ∉ p._marqueeState.map Prod.fst := fun hin => h ((marqueeHas_iff el p).mpr hin)
    have hno : el ∉ p.resizeObservers.map ResizeObs.marqueeEl := by
      intro hin
      obtain ⟨o, ho, hoe⟩ := List.mem_map.mp hin
      have := h3 o ho
      rw [hoe] at this
      exact h this
    have hkeep : ∀ x, marqueeHas x p = true → marqueeHas x (initMarquee p el) = true :=
      fun x => (initMarquee_has p el x).2
    refine ⟨?_, ?_, ?_⟩
    · rw [e1]
      simp only [List.map_append, List.map_cons, List.map_nil]
      exact List.Nodup.append h1 (List.nodup_singleton _)
        (by
          intro a ha hb
          rw [List.mem_singleton] at hb
          subst hb
          exact hnot ha)
    · rcases e5 with e | ⟨s, seq, e⟩
      · rw [e]; exact h2
      · rw [e]
        simp only [List.map_append, List.map_cons, List.map_nil]
        exact List.Nodup.append h2 (List.nodup_singleton _)
          (by
            intro a ha hb
            rw [List.mem_singleton] at hb
            subst hb
            exact hno ha)
    · intro o ho
      rcases e5 with e | ⟨s, seq, e⟩
      · rw [e] at ho
        exact hkeep _ (h3 o ho)
      · rw [e] at ho
        rcases List.mem_append.mp ho with hin | hin
        · exact hkeep _ (h3 o hin)
        · rw [List.mem_singleton] at hin
          subst hin
          exact (initMarquee_has p el el).1

theorem foldl_initMarquee_unique (L : List Nat) (p : Page)
    (h1 : (p._marqueeState.map Prod.fst).Nodup)
    (h2 : (p.resizeObservers.map ResizeObs.marqueeEl).Nodup)
    (h3 : ∀ o ∈ p.resizeObservers, marqueeHas o.marqueeEl p = true) :
    ((L.foldl initMarquee p)._marqueeState.map Prod.fst).Nodup ∧
    ((L.foldl initMarquee p).resizeObservers.map ResizeObs.marqueeEl).Nodup ∧
    (∀ o ∈ (L.foldl initMarquee p).resizeObservers,
      marqueeHas o.marqueeEl (L.foldl initMarquee p) = true) := by
  induction L generalizing p with
  | nil => exact ⟨h1, h2, h3⟩
  | cons a as ih =>
    simp only [List.foldl_cons]
    obtain ⟨k1, k2, k3⟩ := initMarquee_unique p a h1 h2 h3
    exact ih (initMarquee p a) k1 k2 k3

theorem initStackMarquees_unique (p : Page)
    (h1 : (p._marqueeState.map Prod.fst).Nodup)
    (h2 : (p.resizeObservers.map ResizeObs.marqueeEl).Nodup)
    (h3 : ∀ o ∈ p.resizeObservers, marqueeHas o.marqueeEl p = true) :
    ((initStackMarquees p)._marqueeState.map Prod.fst).Nodup ∧
    ((initStackMarquees p).resizeObservers.map ResizeObs.marqueeEl).Nodup ∧
    (∀ o ∈ (initStackMarquees p).resizeObservers,
      marqueeHas o.marqueeEl (initStackMarquees p) = true) := by
  unfold initStackMarquees
  simp only []
  split
  · exact ⟨h1, h2, h3⟩
  · exact foldl_initMarquee_unique _ p h1 h2 h3

theorem iterate_initStackMarquees_unique (n : Nat) (p : Page)
    (h1 : (p._marqueeState.map Prod.fst).Nodup)
    (h2 : (p.resizeObservers.map ResizeObs.marqueeEl).Nodup)
    (h3 : ∀ o ∈ p.resizeObservers, marqueeHas o.marqueeEl p = true) :
    ((initStackMarquees^[n] p)._marqueeState.map Prod.fst).Nodup ∧
    ((initStackMarquees^[n] p).resizeObservers.map ResizeObs.marqueeEl).Nodup ∧
    (∀ o ∈ (initStackMarquees^[n] p).resizeObservers,
      marqueeHas o.marqueeEl (initStackMarquees^[n] p) = true) := by
  induction n with
  | zero => exact ⟨h1, h2, h3⟩
  | succ k ih =>
    rw [Function.iterate_succ_apply']
    exact initStackMarquees_unique _ ih.1 ih.2.1 ih.2.2

/-- C8: `initStackMarquees` is idempotent per element. A second call changes
nothing: the page after two calls is the page after one, so no animation-frame
callback, resize observer or timer is added; an element already in the side-table
is skipped; a call on a page whose marquees are all in the side-table is the
identity; and, starting from an empty side-table, after any number of calls every
element has at most one side-table entry and at most one resize observer. -/
theorem initStackMarquees_idempotent (p : Page) :
    initStackMarquees (initStackMarquees p) = initStackMarquees p ∧
    (∀ el, marqueeHas el p = true → initMarquee p el = p) ∧
    ((∀ el ∈ querySelectorAll "stack-marquee" p.doc, marqueeHas el p = true) →
      initStackMarquees p = p) ∧
    (p._marqueeState = [] → p.resizeObservers = [] → ∀ n el : Nat,
      ((initStackMarquees^[n] p)._marqueeState.map Prod.fst).count el ≤ 1 ∧
      ((initStackMarquees^[n] p).resizeObservers.map ResizeObs.marqueeEl).count el ≤ 1) := by
  refine ⟨?_, initMarquee_old p, initStackMarquees_tracked p, ?_⟩
  · apply initStackMarquees_tracked
    rw [initStackMarquees_doc]
    exact initStackMarquees_all p
  · intro h1 h2 n el
    obtain ⟨k1, k2, _⟩ := iterate_initStackMarquees_unique n p
      (by rw [h1]; exact List.nodup_nil) (by rw [h2]; exact List.nodup_nil)
      (by rw [h2]; intro o ho; simp at ho)
    exact ⟨List.nodup_iff_count_le_one.mp k1 el, List.nodup_iff_count_le_one.mp k2 el⟩

/-- Witness for C8: one marquee, initialised from an
empty side-table: one entry, one animation-frame callback, one resize observer,
and a second call adds nothing. -/
theorem initStackMarquees_idempotent_witness :
    (initStackMarquees (freshPage (marqueeDoc 1200 0) 0))._marqueeState = [(0, 0)] ∧
    (initStackMarquees (freshPage (marqueeDoc 1200 0) 0)).rafQueue = [0] ∧
    (initStackMarquees (freshPage (marqueeDoc 1200 0) 0)).resizeObservers = [⟨0, 0, [2]⟩] ∧
    initStackMarquees (initStackMarquees (freshPage (marqueeDoc 1200 0) 0))
      = initStackMarquees (freshPage (marqueeDoc 1200 0) 0) ∧
    (((initStackMarquees^[2] (freshPage (marqueeDoc 1200 0) 0))._marqueeState.map
        Prod.fst).count 0 ≤ 1) :=
  have h := initStackMarquees_idempotent (freshPage (marqueeDoc 1200 0) 0)
  ⟨by decide, by decide, by decide, h.1, (h.2.2.2 rfl rfl 2 0).1⟩

/-- Witness for C9: `observeReveals` observes the two sections; element
1 is reported outside, then intersecting, then outside again. -/
theorem reveal_one_shot_witness :
    observedBy 0 (observeReveals (freshPage revealDoc 0)) = [1, 2] ∧
    hasClass "is-in" 1
      (deliver 0 ([[⟨1, false⟩]] ++ [[⟨1, true⟩]] ++ [[⟨1, false⟩]])
        (observeReveals (freshPage revealDoc 0))).doc = true ∧
    1 ∉ observedBy 0
      (deliver 0 ([[⟨1, false⟩]] ++ [[⟨1, true⟩]] ++ [[⟨1, false⟩]])
        (observeReveals (freshPage revealDoc 0))) :=
  have h := reveal_one_shot 0 (observeReveals (freshPage revealDoc 0)) [[⟨1, false⟩]]
    [[⟨1, false⟩]] [⟨1, true⟩] ⟨1, true⟩ (by decide) rfl (by decide)
  ⟨by decide, h.1, h.2.1⟩

/-! ## The timer of `_waitForImages` -/

theorem timers_finish (w : Nat) (p : Page) : (finish w p).timers = p.timers := by
  unfold finish
  simp only []
  split
  · rw [timers_resolve]
  · rfl

theorem timers_foldl_finish (hit : List Listener) (q : Page) :
    (hit.foldl (fun r l => finish l.w r) q).timers = q.timers := by
  induction hit generalizing q with
  | nil => rfl
  | cons l ls ih =>
    simp only [List.foldl_cons]
    rw [ih, timers_finish]

/-- No image event clears a timer: `finish` resolves the promise and leaves the
pending timers as they are. -/
theorem timers_dispatchImg (kind : ImgEvent) (img : Nat) (p : Page) :
    (dispatchImg kind img p).timers = p.timers := by
  unfold dispatchImg
  simp only []
  rw [timers_foldl_finish]

/-- C3 fails on the code: a marquee has one image that is still loading when the
animation-frame callback calls `_waitForImages(marqueeEl, 900)`; the image fires
`load` at 100 ms. The promise is then resolved by `finish`, and the timeout timer
(handle 1, due at 900 ms) is still pending, also at 899 ms. Only when the image is
already complete at the call does the `then` callback clear the timer. -/
theorem waitForImages_timer_left_pending :
    querySelectorAllImg 0 (imgDoc false) = [3] ∧
    imgLoadedAt100.now = 100 ∧
    isResolved 0 imgLoadedAt100 = true ∧
    remainingOf 0 imgLoadedAt100 = 0 ∧
    imgLoadedAt100.timers = [⟨1, 900, .waitTimeout 0⟩] ∧
    timerPending 1 imgLoadedAt100 = true ∧
    timerPending 1 (advanceTo 899 imgLoadedAt100) = true ∧
    isResolved 0 (task (startMarquee 0) (freshPage (imgDoc true) 0)) = true ∧
    timerPending 1 (task (startMarquee 0) (freshPage (imgDoc true) 0)) = false := by
  refine ⟨by decide, by decide, by decide, by decide, by decide, by decide, by decide,
    by decide, by decide⟩

end InkUi
